import Mathlib

/-!
Verification of the conversation-monitoring script `conveertaion.py`.

The script polls a conversational-AI provider for newly completed call
transcripts, derives a customer email address and an LLM-generated summary,
emails the summary to a fixed recipient and appends audit-log lines.

This file gives a shallow embedding of the script's pure logic:
string functions are translated directly; Python dictionaries and JSON
payloads are modelled by an inductive `PyVal` type with explicit
attribute-error propagation (`Except`); the external effects (HTTP fetches,
the generative-text call, the SMTP session) are modelled by environment
values describing the outcome of each call; the `tenacity` retry decorator
is modelled by an explicit runner that re-invokes the wrapped body while it
raises.

Conventions:
* Python exceptions are modelled with `Except String`; an `except` block is
  an explicit `match` on the result.
* Python `str.lower` is modelled by `Char.toLower` mapped over the
  characters; every string the script lowercases has passed the ASCII-only
  email syntax check first, where Unicode and ASCII lowercasing agree.
* Python `str.strip` is modelled by trimming the ASCII whitespace
  characters; the Unicode-only space characters are not modelled.
-/

namespace Conveertaion

/-! ### Character classes of the two email regexes

`validate_email` uses `r'^[a-zA-Z0-9._%+-]+@[a-zA-Z0-9.-]+\.[a-zA-Z]{2,}$'`.
`extract_customer_email` searches messages with
`r'\b[A-Za-z0-9._%+-]+@[A-Za-z0-9.-]+\.[A-Z|a-z]{2,}\b'` (note that this
character class contains a literal `|`). -/

/-- `[a-zA-Z0-9._%+-]`, the local-part class of both regexes. -/
def localChar (c : Char) : Bool :=
  c.isAlphanum || c == '.' || c == '_' || c == '%' || c == '+' || c == '-'

/-- `[a-zA-Z0-9.-]`, the domain class of both regexes. -/
def domainChar (c : Char) : Bool :=
  c.isAlphanum || c == '.' || c == '-'

/-- `[a-zA-Z]`, the top-level-domain class of `validate_email`. -/
def tldChar (c : Char) : Bool :=
  c.isAlpha

/-- `[A-Z|a-z]`, the top-level-domain class of the transcript search regex:
letters or a literal `|`. -/
def tldBarChar (c : Char) : Bool :=
  c.isAlpha || c == '|'

/-- `\w` as used by `\b`: word characters. Python's `re` uses the Unicode
definition; the inputs handled here are ASCII, where it is alphanumerics
plus underscore. -/
def wordChar (c : Char) : Bool :=
  c.isAlphanum || c == '_'

/-- `tld` part accepted by `\.[a-zA-Z]{2,}$`: at least two letters. -/
def tldOk (t : List Char) : Bool :=
  2 ≤ t.length && t.all tldChar

/-- Decides whether `cs` is in the language of `[a-zA-Z0-9.-]+\.[a-zA-Z]{2,}`:
a split position `i` is sought with a nonempty domain-class prefix, a literal
dot at `i`, and a top-level domain after it. -/
def domTldOk (cs : List Char) : Bool :=
  (List.range cs.length).any fun i =>
    decide (0 < i) && (cs.take i).all domainChar && (cs.getD i ' ' == '.')
      && tldOk (cs.drop (i + 1))

/-- Decides whether `cs` is in the language of the full pattern
`[a-zA-Z0-9._%+-]+@[a-zA-Z0-9.-]+\.[a-zA-Z]{2,}` anchored at both ends.
Since `@` is not in the local-part class, a match must split at the first
`@`. -/
def matchCore (cs : List Char) : Bool :=
  let l := cs.takeWhile fun c => !(c == '@')
  match cs.dropWhile fun c => !(c == '@') with
  | [] => false
  | _ :: tail => !l.isEmpty && l.all localChar && domTldOk tail

/-- `validate_email` (conveertaion.py lines 42-47): `False` on a falsy
(empty) value, otherwise `re.match(pattern, email) is not None`.  Python's
`$` matches at the end of the string or just before a single trailing
newline, hence the second disjunct. -/
def validate_email (email : String) : Bool :=
  if email = "" then false
  else
    matchCore email.data
      || (email.data.getLast? == some '\n' && matchCore email.data.dropLast)

/-- `validate_email` applied to an optional value: Python `None` is falsy,
so an absent value is rejected by the `if not email` guard. -/
def validate_email_opt : Option String → Bool
  | none => false
  | some s => validate_email s

/-- The shape described by the specification: `local@domain.tld` where the
local part is a nonempty run of `[a-zA-Z0-9._%+-]`, the domain a nonempty
run of `[a-zA-Z0-9.-]`, and the top-level domain at least two letters.
This is a second definition following the specification text, to be
compared against `validate_email`. -/
def specEmailShape (s : String) : Prop :=
  ∃ l d t : List Char,
    s.data = l ++ '@' :: (d ++ '.' :: t) ∧
    l ≠ [] ∧ (∀ c ∈ l, localChar c) ∧
    d ≠ [] ∧ (∀ c ∈ d, domainChar c) ∧
    2 ≤ t.length ∧ (∀ c ∈ t, tldChar c)

/-! ### Python `str.lower`

`str.lower` is modelled by mapping `Char.toLower`; the script only ever
lowercases strings that passed the ASCII-only email syntax check, on which
Unicode and ASCII lowercasing agree. -/

/-- Embedding of Python `str.lower`. -/
def pyToLower (s : String) : String :=
  ⟨s.data.map Char.toLower⟩

/-! ### Python `str.strip`, `str.split` and line handling -/

/-- The ASCII whitespace characters stripped by Python `str.strip()`
(Unicode-only space characters are not modelled). -/
def pyWhitespaceChar (c : Char) : Bool :=
  c == ' ' || c == '\t' || c == '\n' || c == '\r' || c == '\x0B' || c == '\x0C'

/-- `str.strip()` on the character list. -/
def trimChars (cs : List Char) : List Char :=
  ((cs.dropWhile pyWhitespaceChar).reverse.dropWhile pyWhitespaceChar).reverse

/-- `line.split(":", 1)[1]`: everything after the first colon. The callers
only evaluate it on lines starting with `"Email:"`, where a colon exists. -/
def afterFirstColon (cs : List Char) : List Char :=
  (cs.dropWhile fun c => !(c == ':')).drop 1

/-- `str.startswith`, on character lists (first argument is the prefix
pattern). -/
def startsWithL : List Char → List Char → Bool
  | [], _ => true
  | _ :: _, [] => false
  | p :: ps, c :: cs => p == c && startsWithL ps cs

/-! ### `lowercase_gemini_response` and `extract_email_from_gemini_response` -/

/-- The per-line body of the `for` loop in `lowercase_gemini_response`
(conveertaion.py lines 69-74): on a line starting with `"Email:"`, take
everything after the first colon, strip it, and when it is nonempty, not
the literal `"None"`, and a valid address, replace the line by
`"Email: "` followed by the lowercased address. -/
def lowerLine (line : List Char) : List Char :=
  if startsWithL "Email:".data line then
    let email := trimChars (afterFirstColon line)
    if email.isEmpty then line
    else if email == "None".data then line
    else if validate_email ⟨email⟩ then "Email: ".data ++ email.map Char.toLower
    else line
  else line

/-- `lowercase_gemini_response` (conveertaion.py lines 64-78): falsy input
is returned unchanged; otherwise the response is split on newlines, each
`Email:` line carrying a valid address is rewritten, and the lines are
joined back with newlines.  The `try`/`except` wrapper is dead code: no
statement in the body raises. -/
def lowercase_gemini_response (s : String) : String :=
  if s = "" then s
  else ⟨List.intercalate ['\n'] ((s.data.splitOn '\n').map lowerLine)⟩

/-- The per-line body of the `for` loop in
`extract_email_from_gemini_response` (conveertaion.py lines 54-58): the
loop returns the stripped, lowercased address of the first `Email:` line
whose address is nonempty, not `"None"` and valid; other lines are
skipped. -/
def extractFromLine (line : List Char) : Option String :=
  if startsWithL "Email:".data line then
    let email := trimChars (afterFirstColon line)
    if email.isEmpty then none
    else if email == "None".data then none
    else if validate_email ⟨email⟩ then some ⟨email.map Char.toLower⟩
    else none
  else none

/-- `extract_email_from_gemini_response` (conveertaion.py lines 49-62):
`None` on falsy input, otherwise the first line that yields an address.
The `try`/`except` wrapper is dead code: no statement in the body raises. -/
def extract_email_from_gemini_response (s : String) : Option String :=
  if s = "" then none
  else List.findSome? extractFromLine (s.data.splitOn '\n')

/-! #### Character facts used for idempotence of the rewrite -/

/-- All characters that can occur in a string accepted by `matchCore`. -/
def emailClassChar (c : Char) : Bool :=
  localChar c || c == '@' || domainChar c || c == '.' || tldChar c

/-! ### Model of Python values

JSON payloads and the values the script passes around are modelled by
`PyVal`.  Operations that can raise (`.get` on a non-dictionary, iterating
a non-iterable, regex calls on non-strings) return `Except String`; the
error message plays the role of the Python exception. -/

inductive PyVal where
  | pyNone
  | pyBool (b : Bool)
  | pyInt (n : Int)
  | pyStr (s : String)
  | pyList (items : List PyVal)
  | pyDict (entries : List (String × PyVal))

/-- Python truthiness of the modelled values. -/
def pyTruthy : PyVal → Bool
  | .pyNone => false
  | .pyBool b => b
  | .pyInt n => decide (n ≠ 0)
  | .pyStr s => decide (s ≠ "")
  | .pyList l => !l.isEmpty
  | .pyDict l => !l.isEmpty

/-- `v.get(key, dflt)`: defined on dictionaries, `AttributeError` on
anything else. -/
def pyGet (v : PyVal) (key : String) (dflt : PyVal) : Except String PyVal :=
  match v with
  | .pyDict entries =>
    .ok (match entries.lookup key with
      | some x => x
      | Option.none => dflt)
  | _ => .error "AttributeError"

/-- `for x in v`: lists yield their items, strings their one-character
substrings, dictionaries their keys; other values raise `TypeError`. -/
def pyIter : PyVal → Except String (List PyVal)
  | .pyList l => .ok l
  | .pyStr s => .ok (s.data.map fun c => .pyStr ⟨[c]⟩)
  | .pyDict entries => .ok (entries.map fun kv => .pyStr kv.1)
  | _ => .error "TypeError"

/-- `f"{v}"`: string formatting never raises.  The rendering of containers
is abbreviated; the script only embeds these strings into the prompt and
log text, whose exact content no modelled observable depends on. -/
def pyFormat : PyVal → String
  | .pyNone => "None"
  | .pyBool b => if b then "True" else "False"
  | .pyInt n => toString n
  | .pyStr s => s
  | .pyList _ => "<list>"
  | .pyDict _ => "<dict>"

/-! ### The transcript email search (`email_pattern.search`)

`re.search` with pattern
`\b[A-Za-z0-9._%+-]+@[A-Za-z0-9.-]+\.[A-Z|a-z]{2,}\b`: the leftmost match
under Python's backtracking order.  `+` is greedy; `@` is not in the
local-part class, so the local part never backtracks; the dot position and
the top-level-domain length backtrack from longest to shortest. -/

/-- Whether position `i` holds a word character (`false` beyond the ends). -/
def wordAt (cs : List Char) (i : Nat) : Bool :=
  match cs[i]? with
  | some c => wordChar c
  | Option.none => false

/-- `\b` at position `i`: word-ness changes between `i - 1` and `i`. -/
def boundary (cs : List Char) (i : Nat) : Bool :=
  match i with
  | 0 => wordAt cs 0
  | j + 1 => wordAt cs j != wordAt cs (j + 1)

/-- Attempt to match the email pattern at start position `i`; returns
the match's end position, the first found in backtracking order. -/
def matchAt (cs : List Char) (i : Nat) : Option Nat :=
  if boundary cs i then
    let a := ((cs.drop i).takeWhile localChar).length
    if a = 0 then Option.none
    else
      match cs[i + a]? with
      | some c =>
        if c = '@' then
          let q := i + a + 1
          let b := ((cs.drop q).takeWhile domainChar).length
          (List.range b).reverse.findSome? fun k =>
            if k = 0 then Option.none
            else match cs[q + k]? with
              | some d =>
                if d = '.' then
                  let r := q + k + 1
                  let cmax := ((cs.drop r).takeWhile tldBarChar).length
                  ((List.range (cmax - 1)).reverse.map (· + 2)).findSome?
                    fun k3 =>
                      if boundary cs (r + k3) then some (r + k3)
                      else Option.none
                else Option.none
              | Option.none => Option.none
        else Option.none
      | Option.none => Option.none
  else Option.none

/-- `email_pattern.search(s)` followed by `.group(0)`: the match at the
leftmost start position that matches, or `None`. -/
def pyEmailSearch (s : String) : Option String :=
  (List.range s.data.length).findSome? fun i =>
    (matchAt s.data i).map fun j => (⟨(s.data.drop i).take (j - i)⟩ : String)

/-! ### `extract_customer_email` -/

/-- The transcript scan of `extract_customer_email` (conveertaion.py lines
134-143): for each entry, `entry.get("message", "")`, search it, and return
the lowercased first match when it validates; entries whose first match
fails validation are skipped.  A non-dictionary entry or a non-string
message raises. -/
def searchEntries : List PyVal → Except String (Option String)
  | [] => .ok Option.none
  | entry :: rest => do
    let message ← pyGet entry "message" (.pyStr "")
    match message with
    | .pyStr s =>
      match pyEmailSearch s with
      | some m =>
        if validate_email m then .ok (some (pyToLower m))
        else searchEntries rest
      | Option.none => searchEntries rest
    | _ => .error "TypeError"

/-- `conversation_data.get("transcript", [])` followed by the entry loop. -/
def transcript_email_search (conversation_data : PyVal) :
    Except String (Option String) := do
  let transcript ← pyGet conversation_data "transcript" (.pyList [])
  let entries ← pyIter transcript
  searchEntries entries

/-- The `try` block of `extract_customer_email` (conveertaion.py lines
128-143).  `if email and validate_email(email)` short-circuits: a falsy
email skips the call, a truthy non-string raises `TypeError` inside
`re.match`. -/
def extract_customer_email_body (conversation_data : PyVal) :
    Except String (Option String) := do
  let client_data ← pyGet conversation_data
    "conversation_initiation_client_data" (.pyDict [])
  let email ← pyGet client_data "email" .pyNone
  if pyTruthy email then
    match email with
    | .pyStr s =>
      if validate_email s then .ok (some (pyToLower s))
      else transcript_email_search conversation_data
    | _ => .error "TypeError"
  else transcript_email_search conversation_data

/-- `extract_customer_email` (conveertaion.py lines 126-146): the body
wrapped in `try`/`except Exception`, which degrades any raise to `None`. -/
def extract_customer_email (conversation_data : PyVal) : Option String :=
  match extract_customer_email_body conversation_data with
  | .ok r => r
  | .error _ => Option.none

/-! ### The `tenacity` retry decorator

`@retry(stop=stop_after_attempt(3), wait=wait_fixed(2), retry=...)` is
modelled by an explicit runner.  `body i` is the outcome of the `i`-th
invocation of the wrapped callable: `Except.error` models the callable
raising, `Except.ok` a normal return.  The runner re-invokes the callable
after a 2-second pause (counted in `pauses`) while it raises a retryable
exception and attempts remain; the outcome of the final attempt
propagates. -/

structure RetryResult (E A : Type) where
  attempts : Nat
  pauses : Nat
  result : Except E A

def tenacityRun {E A : Type} (shouldRetry : E → Bool)
    (body : Nat → Except E A) : Nat → Nat → Nat → RetryResult E A
  | 0, made, paused => ⟨made, paused, body made⟩
  | 1, made, paused => ⟨made + 1, paused, body made⟩
  | r + 2, made, paused =>
    match body made with
    | .ok a => ⟨made + 1, paused, .ok a⟩
    | .error e =>
      if shouldRetry e then
        tenacityRun shouldRetry body (r + 1) (made + 1) (paused + 1)
      else ⟨made + 1, paused, .error e⟩

/-! ### `send_to_gemini` -/

/-- Outcome of one `model.generate_content(prompt)` call: a raised
exception or a response whose `.text` is the given string (an empty string
models a falsy `.text`). -/
inductive GeminiEvent where
  | raise (msg : String)
  | reply (text : String)

/-- `[{offset}s] {role}: {message-or-placeholder}` for one entry; raises on
a non-dictionary entry. -/
def transcriptLine (entry : PyVal) : Except String String := do
  let t ← pyGet entry "time_in_call_secs" (.pyInt 0)
  let role ← pyGet entry "role" (.pyStr "Unknown")
  let message ← pyGet entry "message" (.pyStr "")
  .ok ("[" ++ pyFormat t ++ "s] " ++ pyFormat role ++ ": " ++
    (if pyTruthy message then pyFormat message
     else "No message (e.g., tool call)"))

/-- `"\n".join(...)` over the transcript entries. -/
def transcriptText (entries : List PyVal) : Except String String := do
  let lines ← entries.mapM transcriptLine
  .ok (String.intercalate "\n" lines)

/-- The `try` block of `send_to_gemini` (conveertaion.py lines 156-189):
empty transcript short-circuits to `None`; the transcript text is built
(possibly raising on malformed entries); the provider is called; a truthy
response text is post-processed by `lowercase_gemini_response`. -/
def send_to_gemini_body (ev : GeminiEvent) (transcript : PyVal) :
    Except String (Option String) := do
  if pyTruthy transcript = false then .ok Option.none
  else do
    let entries ← pyIter transcript
    let _ ← transcriptText entries
    match ev with
    | .raise msg => .error msg
    | .reply text =>
      if text = "" then .ok Option.none
      else .ok (some (lowercase_gemini_response text))

/-- One invocation of the decorated function: the whole body is inside
`try`/`except Exception: return None`, so the callable never raises. -/
def send_to_gemini_once (ev : GeminiEvent) (transcript : PyVal) :
    Option String :=
  match send_to_gemini_body ev transcript with
  | .ok r => r
  | .error _ => Option.none

/-- `send_to_gemini` as decorated (conveertaion.py lines 148-193):
`tenacity` with 3 attempts, 2-second fixed wait, retrying on any
exception, wrapped around `send_to_gemini_once`.  `evs i` is the provider
outcome the `i`-th attempt would observe. -/
def send_to_gemini (evs : Nat → GeminiEvent) (transcript : PyVal) :
    RetryResult String (Option String) :=
  tenacityRun (fun _ => true)
    (fun i => .ok (send_to_gemini_once (evs i) transcript)) 3 0 0

/-! ### `send_email` -/

/-- The exception classes relevant to `send_email`'s retry filter
`retry_if_exception_type((smtplib.SMTPException, ConnectionError))`. -/
inductive SmtpExc where
  | smtpError (msg : String)
  | connectionError (msg : String)
  | otherError (msg : String)

/-- The decorated retry filter of `send_email`. -/
def smtpShouldRetry : SmtpExc → Bool
  | .smtpError _ => true
  | .connectionError _ => true
  | .otherError _ => false

/-- Outcome of the SMTP session of one `send_email` attempt. -/
inductive SmtpEvent where
  /-- `smtplib.SMTP(...)` itself raised: no connection object exists. -/
  | connectFail (msg : String)
  /-- `login` raised `SMTPAuthenticationError` on the open connection. -/
  | authFail
  /-- `starttls`/`login`/`send_message` raised some other exception on the
  open connection. -/
  | sendFail (msg : String)
  /-- the message was sent. -/
  | ok

/-- SMTP credentials from the environment (`None` when unset). -/
structure SmtpConfig where
  email : Option String
  password : Option String

/-- Python truthiness of an optional string. -/
def optStrTruthy : Option String → Bool
  | Option.none => false
  | some s => decide (s ≠ "")

/-- The composed message: subject embeds the conversation id; the body is
the summary, or a placeholder when the summary is falsy. -/
structure EmailMsg where
  rcpt : String
  subject : String
  bodyText : String

def composeMsg (to_email : String) (summary : Option String)
    (conversation_id : String) : EmailMsg :=
  ⟨to_email, "Conversation Summary (ID: " ++ conversation_id ++ ")",
    match summary with
    | some s => if s = "" then "No summary available." else s
    | Option.none => "No summary available."⟩

/-- Observable outcome of one `send_email` attempt: the returned
`(success, detail)` pair, whether a connection object was created, whether
the `finally` block released it, and the delivered message (on success). -/
structure SendResult where
  success : Bool
  detail : String
  opened : Bool
  released : Bool
  delivered : Option EmailMsg

/-- One invocation of the decorated `send_email` (conveertaion.py lines
201-248).  Missing credentials and an invalid target address return
failure before any connection is attempted; the `finally` block runs
`server.quit()` whenever `server` was assigned; `SMTPAuthenticationError`
is reported as `"Authentication error"`, any other exception as its
message.  No exception escapes the function. -/
def send_email_once (cfg : SmtpConfig) (ev : SmtpEvent) (to_email : String)
    (summary : Option String) (conversation_id : String) : SendResult :=
  if !optStrTruthy cfg.email || !optStrTruthy cfg.password then
    ⟨false, "Missing SMTP credentials", false, false, Option.none⟩
  else if !validate_email to_email then
    ⟨false, "Invalid email address", false, false, Option.none⟩
  else
    match ev with
    | .connectFail msg => ⟨false, msg, false, false, Option.none⟩
    | .authFail => ⟨false, "Authentication error", true, true, Option.none⟩
    | .sendFail msg => ⟨false, msg, true, true, Option.none⟩
    | .ok => ⟨true, "Success", true, true,
        some (composeMsg to_email summary conversation_id)⟩

/-- `send_email` as decorated (conveertaion.py lines 195-248): `tenacity`
with 3 attempts, 2-second fixed wait, retrying only on
`smtplib.SMTPException` and `ConnectionError`, wrapped around
`send_email_once`. -/
def send_email (cfg : SmtpConfig) (evs : Nat → SmtpEvent) (to_email : String)
    (summary : Option String) (conversation_id : String) :
    RetryResult SmtpExc SendResult :=
  tenacityRun smtpShouldRetry
    (fun i => .ok (send_email_once cfg (evs i) to_email summary
      conversation_id)) 3 0 0

/-! ### The monitor loop

`monitor_new_conversations` (conveertaion.py lines 336-395).  Each `while`
iteration is `monitor_step`; the environment describes the outcomes of the
external calls of that cycle.  An exception escaping the loop body (only
possible from `.get` on a truthy non-dictionary detail payload) is modelled
by `Except.error` and terminates the run, as it terminates the process. -/

/-- `conversation_details.get("status") == "done"`; raises on a
non-dictionary payload, compares unequal on any non-string status. -/
def statusIsDone (v : PyVal) : Except String Bool := do
  let s ← pyGet v "status" .pyNone
  .ok (match s with
    | .pyStr t => decide (t = "done")
    | _ => false)

/-- The `for` loop of `get_last_conversation_id` (conveertaion.py lines
296-302): the first listed conversation whose detail fetch succeeds, is
truthy and has status `"done"`. -/
def firstDone (details : String → Option PyVal) :
    List String → Except String (Option String)
  | [] => .ok Option.none
  | cid :: rest =>
    match details cid with
    | Option.none => firstDone details rest
    | some d =>
      if pyTruthy d then do
        let done ← statusIsDone d
        if done then .ok (some cid) else firstDone details rest
      else firstDone details rest

/-- `get_last_conversation_id` (conveertaion.py lines 288-306): scan the
most recent listing (`page_size=10`); `None` when the fetch failed or no
completed conversation is listed.  Conversations are represented by their
`conversation_id`. -/
def get_last_conversation_id (listing : Option (List String))
    (details : String → Option PyVal) : Except String (Option String) :=
  match listing with
  | Option.none => .ok Option.none
  | some ids => firstDone details ids

/-- `start_time` rendering of `display_conversation_details`: the
timestamp-to-IST calendar formatting is abbreviated, as no modelled
observable depends on the rendered text; the `if start_time_unix:`
truthiness branch is kept. -/
def formatStartTime (v : PyVal) : String :=
  if pyTruthy v then "<start-time> IST" else "Unknown"

/-- The `try` block of `display_conversation_details` (conveertaion.py
lines 252-283): header plus one line per transcript entry. -/
def display_body (d : PyVal) (conversation_id : String) :
    Except String String := do
  let transcript ← pyGet d "transcript" (.pyList [])
  let status ← pyGet d "status" (.pyStr "Unknown")
  let metadata ← pyGet d "metadata" (.pyDict [])
  let st ← pyGet metadata "start_time_unix_secs" (.pyInt 0)
  let dur ← pyGet metadata "call_duration_secs" (.pyInt 0)
  let header := "Conversation Details (ID: " ++ conversation_id ++
    "):\nStatus: " ++ pyFormat status ++ "\nStart Time: " ++
    formatStartTime st ++ "\nCall Duration: " ++ pyFormat dur ++
    " seconds\nTranscript:\n"
  if pyTruthy transcript = false then
    .ok (header ++ "No transcript available.\n")
  else do
    let entries ← pyIter transcript
    let lines ← entries.mapM transcriptLine
    .ok (header ++ String.join (lines.map (· ++ "\n")))

/-- `display_conversation_details` with its `except` block. -/
def display_conversation_details (d : PyVal) (conversation_id : String) :
    String :=
  match display_body d conversation_id with
  | .ok t => t
  | .error e => "Error displaying conversation details: " ++ e

/-- The value the caller of the decorated `send_to_gemini` receives.  The
error branch is unreachable: the wrapped callable never raises, so
`tenacity` always returns its value. -/
def send_to_gemini_value (evs : Nat → GeminiEvent) (transcript : PyVal) :
    Option String :=
  match (send_to_gemini evs transcript).result with
  | .ok r => r
  | .error _ => Option.none

/-- The value the caller of the decorated `send_email` receives; the error
branch is likewise unreachable. -/
def send_email_value (r : RetryResult SmtpExc SendResult) : SendResult :=
  match r.result with
  | .ok v => v
  | .error _ => ⟨false, "RetryError", false, false, Option.none⟩

/-- `process_conversation` (conveertaion.py lines 308-334): Gemini summary
(only for a truthy transcript), extracted email, displayed text.  The
debug dump for one hardcoded conversation id has no modelled observable.
No `try` surrounds this function: a raise propagates to the loop. -/
def process_conversation (gem : Nat → GeminiEvent) (d : PyVal)
    (conversation_id : String) :
    Except String (String × Option String × Option String) := do
  let transcript ← pyGet d "transcript" (.pyList [])
  let gemini_response :=
    if pyTruthy transcript then send_to_gemini_value gem transcript
    else Option.none
  let email := extract_customer_email d
  let conversation_text := display_conversation_details d conversation_id
  .ok (conversation_text, email, gemini_response)

/-- The fixed recipient of every summary email. -/
def recipient : String := "ashimlugun09@gmail.com"

/-- Environment of one polling cycle: the listing returned by
`fetch_conversations(page_size=1)` (`none` models a failed fetch or a
response without the `"conversations"` key, each conversation represented
by its id), the detail fetches, the SMTP configuration and the outcomes of
the provider calls. -/
structure CycleEnv where
  listing : Option (List String)
  details : String → Option PyVal
  cfg : SmtpConfig
  gemini : Nat → GeminiEvent
  smtp : Nat → SmtpEvent

/-- Observable outcome of one cycle: the updated `last_conversation_id`,
the id processed this cycle (if any), the strings written to the audit log
`conversation_emails.log`, and the messages delivered over SMTP. -/
structure StepOut where
  lastSeen : Option String
  processed : Option String
  auditLines : List String
  sent : List EmailMsg

/-- One iteration of the `while True:` loop (conveertaion.py lines
348-395). -/
def monitor_step (env : CycleEnv) (last : Option String) :
    Except String StepOut :=
  match env.listing with
  | Option.none => .ok ⟨last, Option.none, [], []⟩
  | some [] => .ok ⟨last, Option.none, [], []⟩
  | some (cid :: _) =>
    if last = some cid then .ok ⟨last, Option.none, [], []⟩
    else
      match env.details cid with
      | Option.none => .ok ⟨last, Option.none, [], []⟩
      | some d =>
        if pyTruthy d = false then .ok ⟨last, Option.none, [], []⟩
        else do
          let done ← statusIsDone d
          if done = false then .ok ⟨last, Option.none, [], []⟩
          else do
            let res ← process_conversation env.gemini d cid
            let conversation_text := res.1
            let email := res.2.1
            let gemini_response := res.2.2
            let sendPart : List String × List EmailMsg :=
              match gemini_response with
              | some g =>
                let r := send_email_value
                  (send_email env.cfg env.smtp recipient (some g) cid)
                (["Summary Email Status for " ++ cid ++ " to " ++ recipient
                    ++ ": " ++
                    (if r.success then "Success"
                     else "Failed - " ++ r.detail) ++ "\n"],
                  match r.delivered with
                  | some m => [m]
                  | Option.none => [])
              | Option.none => ([], [])
            let emailLines : List String :=
              match email with
              | some e => ["Conversation " ++ cid ++ ": " ++ e ++ "\n"]
              | Option.none => []
            let detailLines : List String :=
              ["Conversation " ++ cid ++ " Details:\n" ++
                conversation_text ++ "\n"]
            let gemLines : List String :=
              match gemini_response with
              | some g => ["Gemini Summary for " ++ cid ++ ":\n" ++ g ++ "\n"]
              | Option.none => []
            .ok ⟨some cid, some cid,
              sendPart.1 ++ emailLines ++ detailLines ++ gemLines,
              sendPart.2⟩

/-- Iterating the loop over a finite schedule of cycle environments;
returns the final `last_conversation_id` and the ids processed, in order.
An uncaught exception stops the run. -/
def monitor_run : Option String → List CycleEnv → Option String × List String
  | last, [] => (last, [])
  | last, env :: rest =>
    match monitor_step env last with
    | .error _ => (last, [])
    | .ok out =>
      let next := monitor_run out.lastSeen rest
      (next.1,
        (match out.processed with
          | some c => [c]
          | Option.none => []) ++ next.2)

/-- `monitor_new_conversations` over a finite schedule: bootstrap the
`last_conversation_id` seed, then iterate. -/
def monitor_new_conversations (bootListing : Option (List String))
    (bootDetails : String → Option PyVal) (envs : List CycleEnv) :
    Except String (Option String × List String) := do
  let last0 ← get_last_conversation_id bootListing bootDetails
  .ok (monitor_run last0 envs)

/-- The newest conversation id a cycle's listing offers, if any. -/
def headOf (env : CycleEnv) : Option String :=
  match env.listing with
  | some (c :: _) => some c
  | _ => Option.none

/-- All newest-ids offered by a schedule's successful listings. -/
def listingHeads (envs : List CycleEnv) : List String :=
  envs.filterMap headOf

/-- A most-recent-first provider over an append-only history never shows an
id again once it has shown a different id afterwards: the id sequence has
no `x … y … x` pattern with `y ≠ x`. -/
def Blocky (l : List String) : Prop :=
  ∀ x y, List.Sublist [x, y, x] l → y = x

/-! ### Spec-side extraction (for C8)

`specExtractEmail` follows the specification's words: prefer the validated,
lowercased metadata email; otherwise the first regex match across the
transcript messages, validated and lowercased; otherwise absent.
`encodeConv` is the well-formed conversation payload of the data model:
optional metadata email, transcript entries carrying string messages. -/

def specTranscriptEmail (msgs : List String) : Option String :=
  msgs.findSome? fun s =>
    match pyEmailSearch s with
    | some m => if validate_email m then some (pyToLower m) else Option.none
    | Option.none => Option.none

def specExtractEmail (metaEmail : Option String) (msgs : List String) :
    Option String :=
  match metaEmail with
  | some m =>
    if validate_email m then some (pyToLower m) else specTranscriptEmail msgs
  | Option.none => specTranscriptEmail msgs

def encodeConv (metaEmail : Option String) (msgs : List String) : PyVal :=
  .pyDict [("conversation_initiation_client_data",
      .pyDict (match metaEmail with
        | some m => [("email", .pyStr m)]
        | Option.none => [])),
    ("transcript", .pyList (msgs.map fun s => .pyDict [("message", .pyStr s)]))]

/-! ## Theorems -/

/-! ### Equivalence of `matchCore` with the declarative shape -/

theorem takeWhile_append_of_forall {p : α → Bool} {l : List α} (y : α)
    (r : List α) (hl : ∀ c ∈ l, p c) (hy : p y = false) :
    (l ++ y :: r).takeWhile p = l := by
  induction l with
  | nil => simp [List.takeWhile, hy]
  | cons a l ih =>
    have ha : p a = true := hl a (by simp)
    simp only [List.cons_append, List.takeWhile_cons, ha, if_true]
    rw [ih fun c hc => hl c (by simp [hc])]

theorem dropWhile_append_of_forall {p : α → Bool} {l : List α} (y : α)
    (r : List α) (hl : ∀ c ∈ l, p c) (hy : p y = false) :
    (l ++ y :: r).dropWhile p = y :: r := by
  induction l with
  | nil => simp [List.dropWhile, hy]
  | cons a l ih =>
    have ha : p a = true := hl a (by simp)
    simp only [List.cons_append, List.dropWhile_cons, ha, if_true]
    exact ih fun c hc => hl c (by simp [hc])

theorem dropWhile_head_false {p : α → Bool} :
    ∀ (l : List α), ∀ y r, l.dropWhile p = y :: r → p y = false
  | [], y, r, h => by simp [List.dropWhile] at h
  | a :: l, y, r, h => by
    by_cases ha : p a
    · rw [List.dropWhile_cons, if_pos ha] at h
      exact dropWhile_head_false l y r h
    · rw [List.dropWhile_cons, if_neg ha] at h
      cases h
      exact Bool.eq_false_iff.mpr ha

theorem domTldOk_iff (cs : List Char) :
    domTldOk cs = true ↔
      ∃ d t : List Char, cs = d ++ '.' :: t ∧
        d ≠ [] ∧ (∀ c ∈ d, domainChar c) ∧ 2 ≤ t.length ∧ (∀ c ∈ t, tldChar c) := by
  constructor
  · intro h
    simp only [domTldOk, List.any_eq_true, List.mem_range] at h
    obtain ⟨i, hi, hcond⟩ := h
    simp only [Bool.and_eq_true, decide_eq_true_eq, List.all_eq_true, beq_iff_eq,
      tldOk] at hcond
    obtain ⟨⟨⟨hpos, hdom⟩, hdot⟩, hlen, htld⟩ := hcond
    refine ⟨cs.take i, cs.drop (i + 1), ?_, ?_, hdom, hlen, htld⟩
    · have hget : cs.getD i ' ' = cs[i] := List.getD_eq_getElem cs ' ' hi
      have hdrop : cs.drop i = cs[i] :: cs.drop (i + 1) :=
        List.drop_eq_getElem_cons hi
      calc cs = cs.take i ++ cs.drop i := (List.take_append_drop i cs).symm
        _ = cs.take i ++ '.' :: cs.drop (i + 1) := by
              rw [hdrop, ← hget, hdot]
    · intro hnil
      have : (cs.take i).length = 0 := by rw [hnil]; rfl
      rw [List.length_take] at this
      omega
  · rintro ⟨d, t, rfl, hdne, hdom, hlen, htld⟩
    simp only [domTldOk, List.any_eq_true, List.mem_range]
    refine ⟨d.length, ?_, ?_⟩
    · simp only [List.length_append, List.length_cons]
      omega
    · have hne : 0 < d.length := List.length_pos.mpr hdne
      have htake : (d ++ '.' :: t).take d.length = d := List.take_left d _
      have hdrop : (d ++ '.' :: t).drop (d.length + 1) = t := by
        have h1 : (d ++ '.' :: t).drop d.length = '.' :: t := List.drop_left d _
        have h2 : (d ++ '.' :: t).drop (d.length + 1)
            = ((d ++ '.' :: t).drop d.length).drop 1 := by
          rw [List.drop_drop]
        rw [h2, h1]
        rfl
      have hget : (d ++ '.' :: t).getD d.length ' ' = '.' := by
        have h3 : (d ++ '.' :: t)[d.length]? = ('.' :: t)[0]? := by
          rw [List.getElem?_append_right (Nat.le_refl _)]
          simp
        rw [List.getD_eq_getElem?_getD, h3]
        simp
      simp only [Bool.and_eq_true, decide_eq_true_eq, List.all_eq_true, beq_iff_eq,
        tldOk, htake, hdrop, hget]
      exact ⟨⟨⟨hne, hdom⟩, trivial⟩, hlen, htld⟩

theorem matchCore_iff (cs : List Char) :
    matchCore cs = true ↔
      ∃ l d t : List Char,
        cs = l ++ '@' :: (d ++ '.' :: t) ∧
        l ≠ [] ∧ (∀ c ∈ l, localChar c) ∧
        d ≠ [] ∧ (∀ c ∈ d, domainChar c) ∧ 2 ≤ t.length ∧ (∀ c ∈ t, tldChar c) := by
  constructor
  · intro h
    unfold matchCore at h
    set p : Char → Bool := fun c => !(c == '@') with hp
    set l := cs.takeWhile p with hl
    cases hdw : cs.dropWhile p with
    | nil => rw [hdw] at h; exact absurd h (by simp)
    | cons y tail =>
      rw [hdw] at h
      simp only [Bool.and_eq_true, Bool.not_eq_true', List.isEmpty_eq_false,
        List.all_eq_true] at h
      obtain ⟨⟨hlne, hloc⟩, hdom⟩ := h
      have hy : p y = false := dropWhile_head_false cs y tail hdw
      have hyat : y = '@' := by
        simp only [hp, Bool.not_eq_false', beq_iff_eq] at hy
        exact hy
      obtain ⟨d, t, htail, hdne, hd, hlen, ht⟩ := (domTldOk_iff tail).mp hdom
      refine ⟨l, d, t, ?_, hlne, hloc, hdne, hd, hlen, ht⟩
      have := List.takeWhile_append_dropWhile (p := p) (l := cs)
      rw [← this, hdw, hyat, htail]
  · rintro ⟨l, d, t, rfl, hlne, hloc, hdne, hd, hlen, ht⟩
    have hpl : ∀ c ∈ l, (fun c => !(c == '@')) c = true := by
      intro c hc
      have : localChar c = true := hloc c hc
      simp only [Bool.not_eq_true', beq_eq_false_iff_ne, ne_eq]
      intro habs
      rw [habs] at this
      simp [localChar, Char.isAlphanum, Char.isAlpha, Char.isUpper, Char.isLower,
        Char.isDigit] at this
    have hat : (fun c => !(c == '@')) '@' = false := by simp
    unfold matchCore
    rw [takeWhile_append_of_forall _ _ hpl hat,
      dropWhile_append_of_forall _ _ hpl hat]
    simp only [Bool.and_eq_true, Bool.not_eq_true', List.isEmpty_eq_false,
      List.all_eq_true]
    exact ⟨⟨hlne, hloc⟩, (domTldOk_iff _).mpr ⟨d, t, rfl, hdne, hd, hlen, ht⟩⟩

theorem specEmailShape_iff (s : String) :
    specEmailShape s ↔ matchCore s.data = true := by
  rw [matchCore_iff]
  rfl

theorem toLower_eq (c : Char) :
    Char.toLower c =
      if c.toNat ≥ 65 ∧ c.toNat ≤ 90 then Char.ofNat (c.toNat + 32) else c :=
  rfl

theorem toLower_of_upper {c : Char} (h : c.toNat ≥ 65 ∧ c.toNat ≤ 90) :
    Char.toLower c = Char.ofNat (c.toNat + 32) := by
  rw [toLower_eq c, if_pos h]

theorem toLower_of_not_upper {c : Char} (h : ¬(c.toNat ≥ 65 ∧ c.toNat ≤ 90)) :
    Char.toLower c = c := by
  rw [toLower_eq c, if_neg h]

theorem toLower_idem (c : Char) :
    Char.toLower (Char.toLower c) = Char.toLower c := by
  by_cases h : c.toNat ≥ 65 ∧ c.toNat ≤ 90
  · rw [toLower_of_upper h]
    obtain ⟨h1, h2⟩ := h
    generalize c.toNat = n at h1 h2
    interval_cases n <;> decide
  · rw [toLower_of_not_upper h, toLower_of_not_upper h]

theorem toLower_not_upper (c : Char) :
    ¬((Char.toLower c).toNat ≥ 65 ∧ (Char.toLower c).toNat ≤ 90) := by
  by_cases h : c.toNat ≥ 65 ∧ c.toNat ≤ 90
  · rw [toLower_of_upper h]
    obtain ⟨h1, h2⟩ := h
    generalize c.toNat = n at h1 h2
    interval_cases n <;> decide
  · rw [toLower_of_not_upper h]
    exact h

theorem localChar_toLower {c : Char} (hc : localChar c = true) :
    localChar (Char.toLower c) = true := by
  by_cases h : c.toNat ≥ 65 ∧ c.toNat ≤ 90
  · rw [toLower_of_upper h]
    obtain ⟨h1, h2⟩ := h
    generalize c.toNat = n at h1 h2
    interval_cases n <;> decide
  · rw [toLower_of_not_upper h]
    exact hc

theorem domainChar_toLower {c : Char} (hc : domainChar c = true) :
    domainChar (Char.toLower c) = true := by
  by_cases h : c.toNat ≥ 65 ∧ c.toNat ≤ 90
  · rw [toLower_of_upper h]
    obtain ⟨h1, h2⟩ := h
    generalize c.toNat = n at h1 h2
    interval_cases n <;> decide
  · rw [toLower_of_not_upper h]
    exact hc

theorem tldChar_toLower {c : Char} (hc : tldChar c = true) :
    tldChar (Char.toLower c) = true := by
  by_cases h : c.toNat ≥ 65 ∧ c.toNat ≤ 90
  · rw [toLower_of_upper h]
    obtain ⟨h1, h2⟩ := h
    generalize c.toNat = n at h1 h2
    interval_cases n <;> decide
  · rw [toLower_of_not_upper h]
    exact hc

theorem matchCore_map_toLower {cs : List Char} (h : matchCore cs = true) :
    matchCore (cs.map Char.toLower) = true := by
  rw [matchCore_iff] at h ⊢
  obtain ⟨l, d, t, heq, hlne, hloc, hdne, hd, hlen, ht⟩ := h
  refine ⟨l.map Char.toLower, d.map Char.toLower, t.map Char.toLower, ?_, ?_, ?_, ?_, ?_, ?_, ?_⟩
  · rw [heq]
    simp [List.map_append]
  · simp [hlne]
  · intro c hc
    obtain ⟨a, ha, rfl⟩ := List.mem_map.mp hc
    exact localChar_toLower (hloc a ha)
  · simp [hdne]
  · intro c hc
    obtain ⟨a, ha, rfl⟩ := List.mem_map.mp hc
    exact domainChar_toLower (hd a ha)
  · simpa using hlen
  · intro c hc
    obtain ⟨a, ha, rfl⟩ := List.mem_map.mp hc
    exact tldChar_toLower (ht a ha)

theorem validate_email_pyToLower {s : String} (h : validate_email s = true) :
    validate_email (pyToLower s) = true := by
  unfold validate_email at h ⊢
  by_cases hs : s = ""
  · rw [if_pos hs] at h
    exact absurd h (by simp)
  · have hsd : s.data ≠ [] := by
      intro hn
      apply hs
      cases s with
      | mk d =>
        simp only at hn
        rw [hn]
    rw [if_neg hs] at h
    have hld : (pyToLower s).data = s.data.map Char.toLower := rfl
    rw [if_neg (by
      intro hn
      have hnil : (pyToLower s).data = [] := by rw [hn]
      rw [hld] at hnil
      exact hsd (List.map_eq_nil_iff.mp hnil))]
    rw [Bool.or_eq_true] at h
    rcases h with h | h
    · rw [Bool.or_eq_true]
      exact Or.inl (by rw [hld]; exact matchCore_map_toLower h)
    · rw [Bool.and_eq_true] at h
      obtain ⟨hlast, hcore⟩ := h
      rw [Bool.or_eq_true]
      refine Or.inr (by
        rw [Bool.and_eq_true]
        constructor
        · rw [hld, List.getLast?_map]
          simp only [beq_iff_eq] at hlast
          rw [hlast]
          rfl
        · rw [hld, ← List.map_dropLast]
          exact matchCore_map_toLower hcore)

theorem startsWithL_append (ps rest : List Char) :
    startsWithL ps (ps ++ rest) = true := by
  induction ps with
  | nil => rfl
  | cons p ps ih => simp [startsWithL, ih]

theorem matchCore_chars {cs : List Char} (h : matchCore cs = true) :
    ∀ c ∈ cs, emailClassChar c = true := by
  rw [matchCore_iff] at h
  obtain ⟨l, d, t, rfl, _, hloc, _, hd, _, ht⟩ := h
  intro c hc
  simp only [List.mem_append, List.mem_cons] at hc
  unfold emailClassChar
  rcases hc with hc | hc | hc | hc | hc
  · simp [hloc c hc]
  · simp [hc]
  · simp [hd c hc]
  · simp [hc]
  · simp [ht c hc]

theorem emailClassChar_toLower {c : Char} (h : emailClassChar c = true) :
    emailClassChar (Char.toLower c) = true := by
  unfold emailClassChar at h ⊢
  simp only [Bool.or_eq_true, beq_iff_eq] at h ⊢
  rcases h with ((((h | h) | h) | h) | h)
  · exact Or.inl (Or.inl (Or.inl (Or.inl (localChar_toLower h))))
  · rw [h]; exact Or.inl (Or.inl (Or.inl (Or.inr (by decide))))
  · exact Or.inl (Or.inl (Or.inr (domainChar_toLower h)))
  · rw [h]; exact Or.inl (Or.inr (by decide))
  · exact Or.inr (tldChar_toLower h)

theorem emailClassChar_not_ws {c : Char} (h : emailClassChar c = true) :
    pyWhitespaceChar c = false := by
  cases hws : pyWhitespaceChar c
  · rfl
  · exfalso
    have hc : c = ' ' ∨ c = '\t' ∨ c = '\n' ∨ c = '\r' ∨ c = '\x0B' ∨ c = '\x0C' := by
      have h6 := hws
      simp only [pyWhitespaceChar, Bool.or_eq_true, beq_iff_eq] at h6
      tauto
    rcases hc with rfl | rfl | rfl | rfl | rfl | rfl <;> exact absurd h (by decide)

theorem emailClassChar_not_colon {c : Char} (h : emailClassChar c = true) :
    (c == ':') = false := by
  cases hcl : (c == ':')
  · rfl
  · exfalso
    have hc : c = ':' := by simpa using hcl
    subst hc
    exact absurd h (by decide)

theorem dropWhile_eq_self_of_forall {p : α → Bool} {l : List α}
    (h : ∀ c ∈ l, p c = false) : l.dropWhile p = l := by
  cases l with
  | nil => rfl
  | cons a l =>
    rw [List.dropWhile_cons, if_neg]
    simp [h a (List.mem_cons_self a l)]

theorem trimChars_eq_self_of_forall {l : List Char}
    (h : ∀ c ∈ l, pyWhitespaceChar c = false) : trimChars l = l := by
  unfold trimChars
  rw [dropWhile_eq_self_of_forall h,
    dropWhile_eq_self_of_forall fun c hc => h c (List.mem_reverse.mp hc),
    List.reverse_reverse]

theorem trimChars_space_cons {l : List Char}
    (h : ∀ c ∈ l, pyWhitespaceChar c = false) : trimChars (' ' :: l) = l := by
  unfold trimChars
  rw [List.dropWhile_cons, if_pos (by decide),
    dropWhile_eq_self_of_forall h,
    dropWhile_eq_self_of_forall fun c hc => h c (List.mem_reverse.mp hc),
    List.reverse_reverse]

/-- The first character a `dropWhile` keeps fails the predicate, stated for
`head?`. -/
theorem dropWhile_head?_false {p : α → Bool} (l : List α) :
    ∀ y, (l.dropWhile p).head? = some y → p y = false := by
  intro y hy
  cases hdw : l.dropWhile p with
  | nil => rw [hdw] at hy; exact absurd hy (by simp)
  | cons a r =>
    rw [hdw] at hy
    simp only [List.head?_cons, Option.some.injEq] at hy
    subst hy
    exact dropWhile_head_false l a r hdw

theorem trimChars_getLast?_not_ws {l : List Char} {c : Char}
    (h : (trimChars l).getLast? = some c) : pyWhitespaceChar c = false := by
  unfold trimChars at h
  rw [List.getLast?_reverse] at h
  exact dropWhile_head?_false _ c h

/-- A trimmed string that `validate_email` accepts is accepted by
`matchCore` directly: the trailing-newline disjunct cannot apply because
`strip` removes a trailing newline. -/
theorem validate_trimmed_matchCore {x : List Char}
    (hval : validate_email ⟨trimChars x⟩ = true) :
    matchCore (trimChars x) = true := by
  unfold validate_email at hval
  by_cases he : (⟨trimChars x⟩ : String) = ""
  · rw [if_pos he] at hval
    exact absurd hval (by simp)
  · rw [if_neg he] at hval
    rw [Bool.or_eq_true] at hval
    rcases hval with h | h
    · exact h
    · exfalso
      rw [Bool.and_eq_true] at h
      obtain ⟨hlast, _⟩ := h
      simp only [beq_iff_eq] at hlast
      have : pyWhitespaceChar '\n' = false :=
        trimChars_getLast?_not_ws (l := x) hlast
      exact absurd this (by decide)

theorem validate_mk_nonempty {l : List Char}
    (hval : validate_email ⟨l⟩ = true) : l ≠ [] := by
  intro hn
  subst hn
  exact absurd hval (by decide)

/-- The rewritten `Email:` line, after prefixing with `"Email: "`. -/
theorem email_line_decomp (r : List Char) :
    "Email: ".data ++ r = "Email:".data ++ (' ' :: r) :=
  rfl

theorem afterFirstColon_email_line (r : List Char) :
    afterFirstColon ("Email: ".data ++ r) = ' ' :: r :=
  rfl

theorem map_toLower_ne_None {e : List Char} :
    (e.map Char.toLower == "None".data) = false := by
  cases hbeq : (e.map Char.toLower == "None".data)
  · rfl
  · exfalso
    have heq : e.map Char.toLower = "None".data := by
      exact eq_of_beq hbeq
    have hN : 'N' ∈ e.map Char.toLower := by
      rw [heq]
      decide
    obtain ⟨a, _, ha⟩ := List.mem_map.mp hN
    have := toLower_not_upper a
    rw [ha] at this
    exact this (by decide)

theorem lowerLine_of_valid {line : List Char}
    (hpre : startsWithL "Email:".data line = true)
    (he1 : (trimChars (afterFirstColon line)).isEmpty = false)
    (he2 : (trimChars (afterFirstColon line) == "None".data) = false)
    (he3 : validate_email ⟨trimChars (afterFirstColon line)⟩ = true) :
    lowerLine line =
      "Email: ".data ++ (trimChars (afterFirstColon line)).map Char.toLower := by
  unfold lowerLine
  rw [if_pos hpre]
  simp only [he1, he2, Bool.false_eq_true, if_false, he3, if_true]

theorem lowerLine_idem (line : List Char) :
    lowerLine (lowerLine line) = lowerLine line := by
  by_cases hpre : startsWithL "Email:".data line = true
  · by_cases he1 : (trimChars (afterFirstColon line)).isEmpty = true
    · have hself : lowerLine line = line := by
        unfold lowerLine
        rw [if_pos hpre]
        simp only [he1, if_true]
      rw [hself, hself]
    · rw [Bool.not_eq_true] at he1
      by_cases he2 : (trimChars (afterFirstColon line) == "None".data) = true
      · have hself : lowerLine line = line := by
          unfold lowerLine
          rw [if_pos hpre]
          simp only [he1, Bool.false_eq_true, if_false, he2, if_true]
        rw [hself, hself]
      · rw [Bool.not_eq_true] at he2
        by_cases he3 : validate_email ⟨trimChars (afterFirstColon line)⟩ = true
        · -- the line is rewritten; the rewritten line is a fixed point
          set e := trimChars (afterFirstColon line) with hedef
          have hrw : lowerLine line = "Email: ".data ++ e.map Char.toLower :=
            lowerLine_of_valid hpre he1 he2 he3
          have hcore : matchCore e = true := validate_trimmed_matchCore he3
          have hchars : ∀ c ∈ e.map Char.toLower, emailClassChar c = true := by
            intro c hc
            obtain ⟨a, ha, rfl⟩ := List.mem_map.mp hc
            exact emailClassChar_toLower (matchCore_chars hcore a ha)
          have hnws : ∀ c ∈ e.map Char.toLower, pyWhitespaceChar c = false :=
            fun c hc => emailClassChar_not_ws (hchars c hc)
          have hene : e ≠ [] := validate_mk_nonempty he3
          have htrim2 : trimChars (afterFirstColon (lowerLine line))
              = e.map Char.toLower := by
            rw [hrw, afterFirstColon_email_line]
            exact trimChars_space_cons hnws
          have hpre2 : startsWithL "Email:".data (lowerLine line) = true := by
            rw [hrw, email_line_decomp]
            exact startsWithL_append _ _
          have hne2 : (trimChars (afterFirstColon (lowerLine line))).isEmpty
              = false := by
            rw [htrim2]
            simp [hene]
          have hnn2 : (trimChars (afterFirstColon (lowerLine line))
              == "None".data) = false := by
            rw [htrim2]
            exact map_toLower_ne_None
          have hval2 : validate_email
              ⟨trimChars (afterFirstColon (lowerLine line))⟩ = true := by
            rw [htrim2]
            unfold validate_email
            rw [if_neg (by
              intro hn
              have : e.map Char.toLower = [] := congrArg String.data hn
              exact hene (List.map_eq_nil_iff.mp this))]
            rw [Bool.or_eq_true]
            exact Or.inl (matchCore_map_toLower hcore)
          rw [lowerLine_of_valid hpre2 hne2 hnn2 hval2, htrim2, hrw]
          congr 1
          rw [List.map_map]
          exact List.map_congr_left fun a _ => toLower_idem a
        · have hself : lowerLine line = line := by
            unfold lowerLine
            rw [if_pos hpre]
            simp only [he1, Bool.false_eq_true, if_false, he2, if_false]
            rw [if_neg he3]
          rw [hself, hself]
  · have hself : lowerLine line = line := by
      unfold lowerLine
      rw [if_neg hpre]
    rw [hself, hself]

/-! #### Split/join round trips -/

theorem splitOnP_pieces {α : Type} [BEq α] [LawfulBEq α] {p : α → Bool} :
    ∀ (xs : List α), ∀ l ∈ xs.splitOnP p, ∀ a ∈ l, p a = false := by
  intro xs
  induction xs with
  | nil =>
    intro l hl a ha
    simp only [List.splitOnP_nil, List.mem_singleton] at hl
    subst hl
    simp at ha
  | cons x xs ih =>
    intro l hl a ha
    rw [List.splitOnP_cons] at hl
    by_cases hx : p x
    · rw [if_pos hx] at hl
      rcases List.mem_cons.mp hl with rfl | h
      · simp at ha
      · exact ih l h a ha
    · rw [if_neg hx] at hl
      cases hsp : xs.splitOnP p with
      | nil => exact absurd hsp (List.splitOnP_ne_nil p xs)
      | cons hd tl =>
        rw [hsp] at hl
        simp only [List.modifyHead] at hl
        rcases List.mem_cons.mp hl with rfl | h
        · rcases List.mem_cons.mp ha with rfl | h2
          · exact Bool.eq_false_iff.mpr hx
          · exact ih hd (by rw [hsp]; exact List.mem_cons_self _ _) a h2
        · exact ih l (by rw [hsp]; exact List.mem_cons.mpr (Or.inr h)) a ha

theorem splitOn_pieces_ne {xs : List Char} :
    ∀ l ∈ xs.splitOn '\n', '\n' ∉ l := by
  intro l hl hmem
  have : ('\n' == '\n') = false := by
    have := splitOnP_pieces (p := fun c : Char => c == '\n') xs l ?_ '\n' hmem
    · exact this
    · simpa [List.splitOn] using hl
  simp at this

theorem lowerLine_no_newline {line : List Char} (h : '\n' ∉ line) :
    '\n' ∉ lowerLine line := by
  by_cases hpre : startsWithL "Email:".data line = true
  · unfold lowerLine
    rw [if_pos hpre]
    by_cases he1 : (trimChars (afterFirstColon line)).isEmpty = true
    · simpa [he1] using h
    · rw [Bool.not_eq_true] at he1
      by_cases he2 : (trimChars (afterFirstColon line) == "None".data) = true
      · simpa [he1, he2] using h
      · rw [Bool.not_eq_true] at he2
        by_cases he3 : validate_email ⟨trimChars (afterFirstColon line)⟩ = true
        · simp only [he1, he2, Bool.false_eq_true, if_false, he3, if_true]
          intro hmem
          rcases List.mem_append.mp hmem with hmem | hmem
          · exact absurd hmem (by decide)
          · obtain ⟨a, ha, hla⟩ := List.mem_map.mp hmem
            have hcls : emailClassChar '\n' = true := by
              rw [← hla]
              exact emailClassChar_toLower
                (matchCore_chars (validate_trimmed_matchCore he3) a ha)
            exact absurd hcls (by decide)
        · simpa [he1, he2, he3] using h
  · unfold lowerLine
    rw [if_neg hpre]
    exact h

/-- One-step unfolding of `lowercase_gemini_response`. -/
theorem lowercase_gemini_response_eq (s : String) :
    lowercase_gemini_response s =
      if s = "" then s
      else ⟨List.intercalate ['\n'] ((s.data.splitOn '\n').map lowerLine)⟩ :=
  rfl

/-- The output lines of `lowercase_gemini_response` are exactly the input
lines transformed by `lowerLine`. -/
theorem lowercase_gemini_response_lines {s : String} (hs : s ≠ "") :
    (lowercase_gemini_response s).data.splitOn '\n'
      = (s.data.splitOn '\n').map lowerLine := by
  have h2 : lowercase_gemini_response s
      = ⟨List.intercalate ['\n'] ((s.data.splitOn '\n').map lowerLine)⟩ := by
    rw [lowercase_gemini_response_eq, if_neg hs]
  rw [h2]
  show (List.intercalate ['\n']
      ((s.data.splitOn '\n').map lowerLine)).splitOn '\n' = _
  rw [show ∀ is : List (List Char), List.intercalate ['\n'] is
      = List.intercalate ['\n'] is from fun _ => rfl]
  apply List.splitOn_intercalate
  · intro l hl
    obtain ⟨a, ha, rfl⟩ := List.mem_map.mp hl
    exact lowerLine_no_newline (splitOn_pieces_ne a ha)
  · intro hn
    have := List.splitOnP_ne_nil (fun c : Char => c == '\n') s.data
    rw [List.map_eq_nil_iff] at hn
    exact this (by simpa [List.splitOn] using hn)

/-- `lowercase_gemini_response` is idempotent. -/
theorem lowercase_gemini_response_idem (s : String) :
    lowercase_gemini_response (lowercase_gemini_response s)
      = lowercase_gemini_response s := by
  by_cases hs : s = ""
  · have h1 : lowercase_gemini_response s = s := by
      rw [lowercase_gemini_response_eq, if_pos hs]
    rw [h1]
    exact h1
  · by_cases hfs : lowercase_gemini_response s = ""
    · rw [lowercase_gemini_response_eq (lowercase_gemini_response s), if_pos hfs]
    · rw [lowercase_gemini_response_eq (lowercase_gemini_response s), if_neg hfs,
        lowercase_gemini_response_lines hs]
      rw [lowercase_gemini_response_eq s, if_neg hs]
      have hmm : ((s.data.splitOn '\n').map lowerLine).map lowerLine
          = (s.data.splitOn '\n').map lowerLine := by
        rw [List.map_map]
        exact List.map_congr_left fun a _ => lowerLine_idem a
      rw [hmm]

/-! #### Facts about `extract_email_from_gemini_response` -/

theorem lowerLine_not_email {line : List Char}
    (h : startsWithL "Email:".data line = false) : lowerLine line = line := by
  unfold lowerLine
  rw [if_neg (by simp [h])]

theorem validate_map_toLower_of_trimmed {x : List Char}
    (he3 : validate_email ⟨trimChars x⟩ = true) :
    validate_email ⟨(trimChars x).map Char.toLower⟩ = true := by
  have hcore : matchCore (trimChars x) = true := validate_trimmed_matchCore he3
  have hene : trimChars x ≠ [] := validate_mk_nonempty he3
  unfold validate_email
  rw [if_neg (by
    intro hn
    have : (trimChars x).map Char.toLower = [] := congrArg String.data hn
    exact hene (List.map_eq_nil_iff.mp this))]
  rw [Bool.or_eq_true]
  exact Or.inl (matchCore_map_toLower hcore)

theorem pyToLower_map_fixed (l : List Char) :
    pyToLower ⟨l.map Char.toLower⟩ = ⟨l.map Char.toLower⟩ := by
  show String.mk ((l.map Char.toLower).map Char.toLower) = _
  rw [List.map_map]
  exact congrArg String.mk (List.map_congr_left fun a _ => toLower_idem a)

theorem extractFromLine_some {line : List Char} {e : String}
    (h : extractFromLine line = some e) :
    startsWithL "Email:".data line = true ∧
    validate_email ⟨trimChars (afterFirstColon line)⟩ = true ∧
    e = ⟨(trimChars (afterFirstColon line)).map Char.toLower⟩ := by
  unfold extractFromLine at h
  by_cases hpre : startsWithL "Email:".data line = true
  · rw [if_pos hpre] at h
    simp only at h
    by_cases he1 : (trimChars (afterFirstColon line)).isEmpty = true
    · rw [if_pos he1] at h
      exact absurd h (by simp)
    · rw [if_neg he1] at h
      by_cases he2 : (trimChars (afterFirstColon line) == "None".data) = true
      · rw [if_pos he2] at h
        exact absurd h (by simp)
      · rw [if_neg he2] at h
        by_cases he3 : validate_email ⟨trimChars (afterFirstColon line)⟩ = true
        · rw [if_pos he3] at h
          simp only [Option.some.injEq] at h
          exact ⟨hpre, he3, h.symm⟩
        · rw [if_neg he3] at h
          exact absurd h (by simp)
  · rw [if_neg hpre] at h
    exact absurd h (by simp)

theorem extractFromLine_none_of_invalid {line : List Char}
    (h : startsWithL "Email:".data line = true →
      validate_email ⟨trimChars (afterFirstColon line)⟩ = false) :
    extractFromLine line = none := by
  unfold extractFromLine
  by_cases hpre : startsWithL "Email:".data line = true
  · rw [if_pos hpre]
    simp only
    by_cases he1 : (trimChars (afterFirstColon line)).isEmpty = true
    · rw [if_pos he1]
    · rw [if_neg he1]
      by_cases he2 : (trimChars (afterFirstColon line) == "None".data) = true
      · rw [if_pos he2]
      · rw [if_neg he2]
        rw [if_neg (by rw [h hpre]; simp)]
  · rw [if_neg hpre]

theorem extract_email_some {s : String} {e : String}
    (h : extract_email_from_gemini_response s = some e) :
    validate_email e = true ∧ pyToLower e = e := by
  unfold extract_email_from_gemini_response at h
  by_cases hs : s = ""
  · rw [if_pos hs] at h
    exact absurd h (by simp)
  · rw [if_neg hs] at h
    obtain ⟨line, _, hline⟩ := List.exists_of_findSome?_eq_some h
    obtain ⟨_, hval, rfl⟩ := extractFromLine_some hline
    exact ⟨validate_map_toLower_of_trimmed hval, pyToLower_map_fixed _⟩

theorem extract_email_none_of_all_invalid {s : String}
    (h : ∀ line ∈ s.data.splitOn '\n',
      startsWithL "Email:".data line = true →
      validate_email ⟨trimChars (afterFirstColon line)⟩ = false) :
    extract_email_from_gemini_response s = none := by
  unfold extract_email_from_gemini_response
  by_cases hs : s = ""
  · rw [if_pos hs]
  · rw [if_neg hs]
    rw [List.findSome?_eq_none_iff]
    intro line hline
    exact extractFromLine_none_of_invalid (h line hline)

/-! ### Loop invariants -/

theorem Blocky_sublist {l s : List String} (hB : Blocky l)
    (hs : List.Sublist s l) : Blocky s :=
  fun x y hxy => hB x y (hxy.trans hs)

/-- Every exit of `monitor_step` either skips (same state, no output) or
processes exactly the newest listed id. -/
theorem monitor_step_cases {env : CycleEnv} {last : Option String}
    {out : StepOut} (h : monitor_step env last = .ok out) :
    (out.processed = Option.none ∧ out.lastSeen = last ∧
      out.auditLines = [] ∧ out.sent = []) ∨
    (∃ cid d, headOf env = some cid ∧ last ≠ some cid ∧
      env.details cid = some d ∧ pyTruthy d = true ∧
      statusIsDone d = .ok true ∧
      out.processed = some cid ∧ out.lastSeen = some cid) := by
  unfold monitor_step at h
  cases hl : env.listing with
  | none =>
    rw [hl] at h
    simp only [Except.ok.injEq] at h
    exact Or.inl (by rw [← h]; exact ⟨rfl, rfl, rfl, rfl⟩)
  | some ids =>
    rw [hl] at h
    cases ids with
    | nil =>
      simp only [Except.ok.injEq] at h
      exact Or.inl (by rw [← h]; exact ⟨rfl, rfl, rfl, rfl⟩)
    | cons cid rest =>
      dsimp only at h
      by_cases heq : last = some cid
      · rw [if_pos heq] at h
        simp only [Except.ok.injEq] at h
        exact Or.inl (by rw [← h]; exact ⟨rfl, rfl, rfl, rfl⟩)
      · rw [if_neg heq] at h
        cases hd : env.details cid with
        | none =>
          rw [hd] at h
          simp only [Except.ok.injEq] at h
          exact Or.inl (by rw [← h]; exact ⟨rfl, rfl, rfl, rfl⟩)
        | some d =>
          rw [hd] at h
          dsimp only at h
          by_cases ht : pyTruthy d = false
          · rw [if_pos ht] at h
            simp only [Except.ok.injEq] at h
            exact Or.inl (by rw [← h]; exact ⟨rfl, rfl, rfl, rfl⟩)
          · rw [if_neg ht] at h
            simp only [bind, Except.bind] at h
            cases hst : statusIsDone d with
            | error e =>
              rw [hst] at h
              dsimp only at h
              exact absurd h (by simp)
            | ok done =>
              rw [hst] at h
              dsimp only at h
              by_cases hdone : done = false
              · rw [if_pos hdone] at h
                simp only [Except.ok.injEq] at h
                exact Or.inl (by rw [← h]; exact ⟨rfl, rfl, rfl, rfl⟩)
              · rw [if_neg hdone] at h
                refine Or.inr ⟨cid, d, ?_, heq, hd, ?_, ?_, ?_⟩
                · unfold headOf
                  rw [hl]
                · revert ht
                  cases pyTruthy d <;> simp
                · have hdt : done = true := by
                    revert hdone
                    cases done <;> simp
                  rw [hst, hdt]
                · cases hpc : process_conversation env.gemini d cid with
                  | error e =>
                    rw [hpc] at h
                    dsimp only at h
                    exact absurd h (by simp)
                  | ok res =>
                    rw [hpc] at h
                    dsimp only at h
                    simp only [Except.ok.injEq] at h
                    rw [← h]
                    exact ⟨rfl, rfl⟩

/-- The ids a run processes form a subsequence of the newest-ids its
listings offered. -/
theorem monitor_run_sublist (last : Option String) (envs : List CycleEnv) :
    List.Sublist (monitor_run last envs).2 (listingHeads envs) := by
  induction envs generalizing last with
  | nil => simp [monitor_run, listingHeads]
  | cons env rest ih =>
    show List.Sublist (monitor_run last (env :: rest)).2 _
    unfold monitor_run
    cases hstep : monitor_step env last with
    | error e =>
      simp only
      exact List.nil_sublist _
    | ok out =>
      simp only
      have hh : listingHeads (env :: rest)
          = (headOf env).toList ++ listingHeads rest := by
        unfold listingHeads
        rw [List.filterMap_cons]
        cases headOf env <;> simp
      rw [hh]
      rcases monitor_step_cases hstep with ⟨hp, _, _, _⟩ | ⟨cid, d, hhead, _, _, _, _, hp, _⟩
      · rw [hp]
        simp only [List.nil_append]
        exact (ih out.lastSeen).trans (List.sublist_append_right _ _)
      · rw [hp, hhead]
        simp only [Option.toList_some, List.singleton_append]
        exact (ih out.lastSeen).cons₂ cid

/-- Under a most-recent-first provider (`Blocky` newest-id sequence,
with the bootstrap seed prepended) no id — the seed included — is ever
processed twice within one run. -/
theorem monitor_run_nodup (envs : List CycleEnv) :
    ∀ last : Option String,
    Blocky (last.toList ++ listingHeads envs) →
    (last.toList ++ (monitor_run last envs).2).Nodup := by
  induction envs with
  | nil =>
    intro last _
    cases last <;> simp [monitor_run]
  | cons env rest ih =>
    intro last hB
    show ((last.toList ++ (monitor_run last (env :: rest)).2)).Nodup
    unfold monitor_run
    cases hstep : monitor_step env last with
    | error e =>
      simp only
      cases last <;> simp
    | ok out =>
      simp only
      have hh : listingHeads (env :: rest)
          = (headOf env).toList ++ listingHeads rest := by
        unfold listingHeads
        rw [List.filterMap_cons]
        cases headOf env <;> simp
      rcases monitor_step_cases hstep with ⟨hp, hlast, _, _⟩ | hproc
      · rw [hp, hlast]
        simp only [List.nil_append]
        apply ih
        apply Blocky_sublist hB
        apply (List.append_sublist_append_left _).mpr
        rw [hh]
        exact List.sublist_append_right _ _
      · obtain ⟨cid, d, hhead, hne, _, _, _, hp, hlast⟩ := hproc
        rw [hp, hlast]
        have hBr : Blocky ((some cid).toList ++ listingHeads rest) := by
          apply Blocky_sublist hB
          rw [hh, hhead]
          simp only [Option.toList_some, List.singleton_append]
          exact List.sublist_append_right _ _
        have hrest := ih (some cid) hBr
        simp only [Option.toList_some, List.singleton_append] at hrest
        cases last with
        | none =>
          simpa using hrest
        | some x =>
          have hxne : x ≠ cid := fun hxc => hne (by rw [hxc])
          simp only [Option.toList_some, List.singleton_append,
            List.nodup_cons] at hrest ⊢
          refine ⟨?_, hrest⟩
          intro hmem
          rcases List.mem_cons.mp hmem with rfl | hmem2
          · exact hxne rfl
          · have hsub : List.Sublist (monitor_run (some cid) rest).2
                (listingHeads rest) := monitor_run_sublist _ _
            have hxheads : x ∈ listingHeads rest := hsub.mem hmem2
            have hxyx : List.Sublist [x, cid, x]
                ((some x).toList ++ listingHeads (env :: rest)) := by
              rw [hh, hhead]
              simp only [Option.toList_some, List.singleton_append]
              exact ((List.singleton_sublist.mpr hxheads).cons₂ cid).cons₂ x
            exact hxne (hB x cid hxyx).symm

/-! ## Claim theorems -/

/-- **C6** (counterexample).  The claim "`validate_email s` is true iff `s`
matches `local@domain.tld` with tld length at least 2" fails at the
concrete input `"a@b.co\n"`: Python's `$` also matches just before a single
trailing newline, so `validate_email` accepts it although it is not of the
claimed shape. -/
theorem c6_validate_email_counterexample :
    validate_email "a@b.co\n" = true ∧ ¬specEmailShape "a@b.co\n" := by
  constructor
  · decide
  · intro h
    have hm := (specEmailShape_iff "a@b.co\n").mp h
    exact absurd hm (by decide)

/-- **C6** (amended).  For every string `s`, `validate_email s` is true iff
`s`, or `s` with a single trailing newline removed, matches
`local@domain.tld` with a top-level domain of length at least 2; in
particular `"a@b.co"` validates while `"a@b"`, the empty string and an
absent value do not. -/
theorem c6_validate_email_amended :
    (∀ s : String,
      validate_email s = true ↔
        (specEmailShape s ∨ ∃ t : String, s = t ++ "\n" ∧ specEmailShape t)) ∧
    validate_email "a@b.co" = true ∧ validate_email "a@b" = false ∧
    validate_email "" = false ∧ validate_email_opt Option.none = false := by
  refine ⟨?_, by decide, by decide, by decide, rfl⟩
  intro s
  constructor
  · intro h
    unfold validate_email at h
    by_cases hs : s = ""
    · rw [if_pos hs] at h
      exact absurd h (by simp)
    · rw [if_neg hs] at h
      rw [Bool.or_eq_true] at h
      rcases h with h | h
      · exact Or.inl ((specEmailShape_iff s).mpr h)
      · rw [Bool.and_eq_true] at h
        obtain ⟨hlast, hcore⟩ := h
        simp only [beq_iff_eq] at hlast
        obtain ⟨ys, hys⟩ := List.getLast?_eq_some_iff.mp hlast
        refine Or.inr ⟨⟨ys⟩, ?_, ?_⟩
        · cases s with
          | mk d =>
            simp only at hys
            rw [show (⟨ys⟩ ++ "\n" : String) = ⟨ys ++ ['\n']⟩ from rfl]
            exact congrArg String.mk hys
        · apply (specEmailShape_iff ⟨ys⟩).mpr
          show matchCore ys = true
          have hdl : s.data.dropLast = ys := by
            rw [hys, List.dropLast_concat]
          rw [← hdl]
          exact hcore
  · intro h
    unfold validate_email
    rcases h with h | ⟨t, rfl, ht⟩
    · have hcore := (specEmailShape_iff s).mp h
      have hne : s ≠ "" := by
        intro hn
        subst hn
        exact absurd hcore (by decide)
      rw [if_neg hne, Bool.or_eq_true]
      exact Or.inl hcore
    · have hcore := (specEmailShape_iff t).mp ht
      have hdata : (t ++ "\n").data = t.data ++ ['\n'] := by
        cases t with
        | mk d => rfl
      have hne : t ++ "\n" ≠ "" := by
        intro hn
        have : (t ++ "\n").data = [] := by rw [hn]
        rw [hdata] at this
        exact absurd this (by simp)
      rw [if_neg hne, Bool.or_eq_true]
      refine Or.inr ?_
      rw [Bool.and_eq_true]
      constructor
      · rw [hdata]
        simp [List.getLast?_concat]
      · rw [hdata, List.dropLast_concat]
        exact hcore

/-- **C7** (counterexample).  The claim that `lowercase_gemini_response`
"only rewrites the casing of the address on the `Email:` line" fails at
`"Email:A@B.Co"`: the rewrite also normalizes the whitespace around the
address (here inserting a space), changing the line's length — more than a
casing change. -/
theorem c7_lowercase_counterexample :
    lowercase_gemini_response "Email:A@B.Co" = "Email: a@b.co" ∧
    "Email: a@b.co".data.length ≠ "Email:A@B.Co".data.length := by
  constructor
  · decide
  · decide

/-- **C7** (amended).  `lowercase_gemini_response` is idempotent; its
output lines are exactly the input lines transformed by the per-line
rewrite `lowerLine`; a line not starting with `"Email:"` (in particular
the `Summary:` line) is left untouched; and a line starting with
`"Email:"` whose stripped address is nonempty, not `"None"` and valid is
rewritten to `"Email: "` followed by the lowercased address — normalizing
the whitespace around the address, not only its casing. -/
theorem c7_lowercase_idempotent_amended (s : String) :
    lowercase_gemini_response (lowercase_gemini_response s)
      = lowercase_gemini_response s ∧
    (s ≠ "" → (lowercase_gemini_response s).data.splitOn '\n'
      = (s.data.splitOn '\n').map lowerLine) ∧
    (∀ line ∈ s.data.splitOn '\n',
      startsWithL "Email:".data line = false → lowerLine line = line) ∧
    (∀ line ∈ s.data.splitOn '\n',
      startsWithL "Email:".data line = true →
      (trimChars (afterFirstColon line)).isEmpty = false →
      (trimChars (afterFirstColon line) == "None".data) = false →
      validate_email ⟨trimChars (afterFirstColon line)⟩ = true →
      lowerLine line =
        "Email: ".data ++ (trimChars (afterFirstColon line)).map Char.toLower) := by
  refine ⟨lowercase_gemini_response_idem s, lowercase_gemini_response_lines, ?_, ?_⟩
  · intro line _ h
    exact lowerLine_not_email h
  · intro line _ hpre he1 he2 he3
    exact lowerLine_of_valid hpre he1 he2 he3

/-- **C7** (witness): the amended theorem applied at a concrete response. -/
theorem c7_lowercase_amended_witness :
    (lowercase_gemini_response "Email: A@B.Co\nSummary: Hi").data.splitOn '\n'
      = ("Email: A@B.Co\nSummary: Hi".data.splitOn '\n').map lowerLine ∧
    lowerLine "Summary: Hi".data = "Summary: Hi".data ∧
    lowerLine "Email: A@B.Co".data = "Email: a@b.co".data := by
  refine ⟨(c7_lowercase_idempotent_amended "Email: A@B.Co\nSummary: Hi").2.1
      (by decide), ?_, ?_⟩
  · exact (c7_lowercase_idempotent_amended "Email: A@B.Co\nSummary: Hi").2.2.1
      "Summary: Hi".data (by decide) (by decide)
  · have h := (c7_lowercase_idempotent_amended "Email: A@B.Co\nSummary: Hi").2.2.2
      "Email: A@B.Co".data (by decide) (by decide) (by decide) (by decide)
      (by decide)
    rw [h]
    decide

/-- A line starting with `"Summary:"` does not start with `"Email:"`. -/
theorem summary_not_email_line {line : List Char}
    (h : startsWithL "Summary:".data line = true) :
    startsWithL "Email:".data line = false := by
  cases line with
  | nil => exact absurd h (by decide)
  | cons c cs =>
    have hc : c = 'S' := by
      have h2 := h
      simp only [startsWithL, Bool.and_eq_true, beq_iff_eq] at h2
      exact h2.1.symm
    subst hc
    simp [startsWithL]

/-- **C3**.  The post-processing of the raw model response: any address the
extraction returns is validated and lowercased; when every `Email:` line
carries an invalid address the extraction is nulled (`None`); and the
response rewrite leaves every line not starting with `"Email:"` — in
particular every `Summary:` line — untouched, whatever happens to the
email. -/
theorem c3_postprocess_validate_lowercase (r : String) :
    (∀ e, extract_email_from_gemini_response r = some e →
      validate_email e = true ∧ pyToLower e = e) ∧
    ((∀ line ∈ r.data.splitOn '\n', startsWithL "Email:".data line = true →
        validate_email ⟨trimChars (afterFirstColon line)⟩ = false) →
      extract_email_from_gemini_response r = Option.none) ∧
    (r ≠ "" → (lowercase_gemini_response r).data.splitOn '\n'
      = (r.data.splitOn '\n').map lowerLine) ∧
    (∀ line ∈ r.data.splitOn '\n',
      startsWithL "Summary:".data line = true → lowerLine line = line) := by
  refine ⟨fun e he => extract_email_some he,
    fun h => extract_email_none_of_all_invalid h,
    lowercase_gemini_response_lines, ?_⟩
  intro line _ hsum
  exact lowerLine_not_email (summary_not_email_line hsum)

/-- **C3** (witness): applied at a response whose `Email:` line is invalid
and whose `Summary:` line must survive. -/
theorem c3_postprocess_witness :
    extract_email_from_gemini_response "Email: not-valid\nSummary: all good"
      = Option.none ∧
    lowerLine "Summary: all good".data = "Summary: all good".data ∧
    (∀ e, extract_email_from_gemini_response "Email: J@K.Com\nSummary: x"
        = some e → validate_email e = true ∧ pyToLower e = e) := by
  refine ⟨(c3_postprocess_validate_lowercase "Email: not-valid\nSummary: all good").2.1
      (by decide), ?_, ?_⟩
  · exact (c3_postprocess_validate_lowercase "Email: not-valid\nSummary: all good").2.2.2
      "Summary: all good".data (by decide) (by decide)
  · exact fun e he =>
      (c3_postprocess_validate_lowercase "Email: J@K.Com\nSummary: x").1 e he

/-- **C2**.  The `@retry` decorator on `send_to_gemini` is dead code: the
function's whole body sits inside `try`/`except Exception: return None`, so
the wrapped callable never raises, `tenacity` never retries and never
pauses — exactly one attempt is made whatever the provider does.  At the
concrete failing input (provider raises on the first attempt, would
succeed on the second) the claimed retry would return the second attempt's
summary, but the code returns `None` after a single attempt;
`None` is likewise returned for an empty transcript. -/
theorem c2_send_to_gemini_single_attempt :
    (∀ (evs : Nat → GeminiEvent) (transcript : PyVal),
      (send_to_gemini evs transcript).attempts = 1 ∧
      (send_to_gemini evs transcript).pauses = 0 ∧
      (send_to_gemini evs transcript).result
        = .ok (send_to_gemini_once (evs 0) transcript)) ∧
    (send_to_gemini
      (fun i => if i = 0 then .raise "boom"
                else .reply "Email: None\nSummary: fine")
      (.pyList [.pyDict [("message", .pyStr "hi")]])).result
        = .ok Option.none ∧
    (∀ evs : Nat → GeminiEvent,
      (send_to_gemini evs (.pyList [])).result = .ok Option.none) := by
  refine ⟨fun evs t => ⟨rfl, rfl, rfl⟩, rfl, fun evs => rfl⟩

/-- **C4**.  `send_email` fails fast, without opening a connection, when
SMTP credentials are missing or the target address is invalid; but the
claimed transport-failure retry is dead code: the function's body catches
every exception, so `tenacity` makes exactly one attempt and never pauses
— shown concretely for a transport failure on the first attempt that
would succeed on the second. -/
theorem c4_send_email_validation_no_retry :
    (∀ (cfg : SmtpConfig) (evs : Nat → SmtpEvent) (to_email : String)
        (summary : Option String) (cid : String),
      (send_email cfg evs to_email summary cid).attempts = 1 ∧
      (send_email cfg evs to_email summary cid).pauses = 0 ∧
      (send_email cfg evs to_email summary cid).result
        = .ok (send_email_once cfg (evs 0) to_email summary cid)) ∧
    (∀ (cfg : SmtpConfig) (ev : SmtpEvent) (to_email : String)
        (summary : Option String) (cid : String),
      (optStrTruthy cfg.email = false ∨ optStrTruthy cfg.password = false) →
      send_email_once cfg ev to_email summary cid
        = ⟨false, "Missing SMTP credentials", false, false, Option.none⟩) ∧
    (∀ (cfg : SmtpConfig) (ev : SmtpEvent) (to_email : String)
        (summary : Option String) (cid : String),
      optStrTruthy cfg.email = true → optStrTruthy cfg.password = true →
      validate_email to_email = false →
      send_email_once cfg ev to_email summary cid
        = ⟨false, "Invalid email address", false, false, Option.none⟩) ∧
    (send_email ⟨some "a@b.co", some "pw"⟩
      (fun i => if i = 0 then .sendFail "boom" else .ok)
      "c@d.ef" (some "s") "id1").attempts = 1 ∧
    (send_email ⟨some "a@b.co", some "pw"⟩
      (fun i => if i = 0 then .sendFail "boom" else .ok)
      "c@d.ef" (some "s") "id1").result
        = .ok ⟨false, "boom", true, true, Option.none⟩ := by
  refine ⟨fun cfg evs t s c => ⟨rfl, rfl, rfl⟩, ?_, ?_, rfl, rfl⟩
  · intro cfg ev t s c h
    unfold send_email_once
    rw [if_pos ?_]
    rcases h with h | h <;> rw [h] <;> simp
  · intro cfg ev t s c he hp hv
    unfold send_email_once
    rw [if_neg (by rw [he, hp]; simp), if_pos (by rw [hv]; rfl)]

/-- **C4** (witness): the validation fast-fail components applied at
concrete inputs. -/
theorem c4_send_email_witness :
    send_email_once ⟨Option.none, some "pw"⟩ .ok "a@b.co" (some "s") "c1"
      = ⟨false, "Missing SMTP credentials", false, false, Option.none⟩ ∧
    send_email_once ⟨some "x@y.co", some "pw"⟩ .ok "not-an-address"
        (some "s") "c1"
      = ⟨false, "Invalid email address", false, false, Option.none⟩ := by
  constructor
  · exact c4_send_email_validation_no_retry.2.1 _ _ _ _ _ (Or.inl rfl)
  · exact c4_send_email_validation_no_retry.2.2.1 _ _ _ _ _ rfl rfl (by decide)

/-- **C5**.  On every exit path of one `send_email` invocation, a connection
that was opened is released by the `finally` block; and under passing
validation the returned detail distinguishes the outcomes: the fixed
string `"Authentication error"` for an authentication failure,
the exception's own message for a connection or send failure (with no
connection object when the connect itself failed), `"Success"` on
delivery. -/
theorem c5_send_email_releases_connection
    (cfg : SmtpConfig) (ev : SmtpEvent) (to_email : String)
    (summary : Option String) (cid : String) :
    ((send_email_once cfg ev to_email summary cid).opened = true →
      (send_email_once cfg ev to_email summary cid).released = true) ∧
    (optStrTruthy cfg.email = true → optStrTruthy cfg.password = true →
      validate_email to_email = true →
      (ev = .authFail → send_email_once cfg ev to_email summary cid
        = ⟨false, "Authentication error", true, true, Option.none⟩) ∧
      (∀ msg, ev = .sendFail msg → send_email_once cfg ev to_email summary cid
        = ⟨false, msg, true, true, Option.none⟩) ∧
      (∀ msg, ev = .connectFail msg →
        send_email_once cfg ev to_email summary cid
        = ⟨false, msg, false, false, Option.none⟩) ∧
      (ev = .ok → send_email_once cfg ev to_email summary cid
        = ⟨true, "Success", true, true,
            some (composeMsg to_email summary cid)⟩)) := by
  constructor
  · unfold send_email_once
    by_cases h1 : (!optStrTruthy cfg.email || !optStrTruthy cfg.password) = true
    · rw [if_pos h1]
      simp
    · rw [if_neg h1]
      by_cases h2 : (!validate_email to_email) = true
      · rw [if_pos h2]
        simp
      · rw [if_neg h2]
        cases ev <;> simp
  · intro he hp hv
    have h1 : ¬((!optStrTruthy cfg.email || !optStrTruthy cfg.password) = true) := by
      rw [he, hp]
      simp
    have h2 : ¬((!validate_email to_email) = true) := by rw [hv]; simp
    refine ⟨?_, ?_, ?_, ?_⟩
    · rintro rfl
      unfold send_email_once
      rw [if_neg h1, if_neg h2]
    · rintro msg rfl
      unfold send_email_once
      rw [if_neg h1, if_neg h2]
    · rintro msg rfl
      unfold send_email_once
      rw [if_neg h1, if_neg h2]
    · rintro rfl
      unfold send_email_once
      rw [if_neg h1, if_neg h2]

/-- **C5** (witness): the release-and-detail behaviour at concrete
inputs. -/
theorem c5_send_email_witness :
    send_email_once ⟨some "x@y.co", some "pw"⟩ .authFail "a@b.co"
        (some "s") "c1"
      = ⟨false, "Authentication error", true, true, Option.none⟩ ∧
    send_email_once ⟨some "x@y.co", some "pw"⟩ (.sendFail "conn reset")
        "a@b.co" (some "s") "c1"
      = ⟨false, "conn reset", true, true, Option.none⟩ ∧
    ((send_email_once ⟨some "x@y.co", some "pw"⟩ .ok "a@b.co" (some "s")
        "c1").opened = true →
      (send_email_once ⟨some "x@y.co", some "pw"⟩ .ok "a@b.co" (some "s")
        "c1").released = true) := by
  refine ⟨?_, ?_, ?_⟩
  · exact (c5_send_email_releases_connection ⟨some "x@y.co", some "pw"⟩
      .authFail "a@b.co" (some "s") "c1").2 rfl rfl (by decide)
      |>.1 rfl
  · exact ((c5_send_email_releases_connection ⟨some "x@y.co", some "pw"⟩
      (.sendFail "conn reset") "a@b.co" (some "s") "c1").2 rfl rfl
      (by decide)).2.1 "conn reset" rfl
  · exact (c5_send_email_releases_connection ⟨some "x@y.co", some "pw"⟩
      .ok "a@b.co" (some "s") "c1").1

theorem validate_email_ne_empty {s : String} (h : validate_email s = true) :
    s ≠ "" := by
  intro hn
  subst hn
  exact absurd h (by decide)

theorem searchEntries_encode (msgs : List String) :
    searchEntries (msgs.map fun s => .pyDict [("message", .pyStr s)])
      = .ok (specTranscriptEmail msgs) := by
  induction msgs with
  | nil => rfl
  | cons s rest ih =>
    show searchEntries (.pyDict [("message", .pyStr s)] ::
      rest.map fun s => .pyDict [("message", .pyStr s)]) = _
    unfold searchEntries
    simp only [pyGet, List.lookup, bind, Except.bind]
    show (match pyEmailSearch s with
      | some m =>
        if validate_email m then Except.ok (some (pyToLower m))
        else searchEntries (rest.map fun s => .pyDict [("message", .pyStr s)])
      | Option.none =>
        searchEntries (rest.map fun s => .pyDict [("message", .pyStr s)])) = _
    unfold specTranscriptEmail
    rw [List.findSome?_cons]
    cases pyEmailSearch s with
    | none => exact ih
    | some m =>
      by_cases hv : validate_email m = true
      · simp only [hv, if_true]
      · simp only [hv, Bool.false_eq_true, if_false]
        exact ih

theorem transcript_email_search_encode (metaEmail : Option String)
    (msgs : List String) :
    transcript_email_search (encodeConv metaEmail msgs)
      = .ok (specTranscriptEmail msgs) := by
  show searchEntries (msgs.map fun s => .pyDict [("message", .pyStr s)])
    = .ok (specTranscriptEmail msgs)
  exact searchEntries_encode msgs

/-- **C8**.  On well-formed conversation payloads, `extract_customer_email`
equals the specification-side priority function: a valid metadata email is
preferred (validated, lowercased), regardless of the transcript; otherwise
the first transcript regex match that validates, lowercased; absent when
neither source yields a valid address. -/
theorem c8_extract_customer_email_priority :
    (∀ (metaEmail : Option String) (msgs : List String),
      extract_customer_email (encodeConv metaEmail msgs)
        = specExtractEmail metaEmail msgs) ∧
    (∀ (m : String) (msgs : List String), validate_email m = true →
      specExtractEmail (some m) msgs = some (pyToLower m)) ∧
    (∀ msgs : List String,
      specExtractEmail Option.none msgs = specTranscriptEmail msgs) := by
  refine ⟨?_, ?_, fun msgs => rfl⟩
  · intro metaEmail msgs
    cases metaEmail with
    | none =>
      show (match transcript_email_search (encodeConv Option.none msgs) with
        | .ok r => r
        | .error _ => Option.none) = specTranscriptEmail msgs
      rw [transcript_email_search_encode]
    | some m =>
      have hbody : extract_customer_email_body (encodeConv (some m) msgs)
          = if pyTruthy (.pyStr m) then
              (if validate_email m then Except.ok (some (pyToLower m))
               else transcript_email_search (encodeConv (some m) msgs))
            else transcript_email_search (encodeConv (some m) msgs) := rfl
      unfold extract_customer_email
      rw [hbody]
      by_cases hm : m = ""
      · subst hm
        rw [if_neg (by simp [pyTruthy])]
        rw [transcript_email_search_encode]
        show specTranscriptEmail msgs = specExtractEmail (some "") msgs
        unfold specExtractEmail
        dsimp only
        rw [if_neg (by simp [validate_email])]
      · rw [if_pos (by simp [pyTruthy, hm])]
        by_cases hv : validate_email m = true
        · rw [if_pos hv]
          show some (pyToLower m) = specExtractEmail (some m) msgs
          unfold specExtractEmail
          dsimp only
          rw [if_pos hv]
        · rw [if_neg hv, transcript_email_search_encode]
          show specTranscriptEmail msgs = specExtractEmail (some m) msgs
          unfold specExtractEmail
          dsimp only
          rw [if_neg hv]
  · intro m msgs hv
    unfold specExtractEmail
    dsimp only
    rw [if_pos hv]

/-- **C8** (witness): the refinement and preference at concrete inputs —
valid metadata beats a valid transcript address; with no metadata email,
the first transcript match is validated and lowercased; with neither, the
result is absent. -/
theorem c8_extract_customer_email_witness :
    extract_customer_email
      (encodeConv (some "John@Test.COM") ["reach me at Alt@Mail.Org"])
      = some "john@test.com" ∧
    extract_customer_email
      (encodeConv Option.none ["reach me at Alt@Mail.Org"])
      = some "alt@mail.org" ∧
    extract_customer_email (encodeConv (some "bad") ["no address here"])
      = Option.none := by
  refine ⟨?_, ?_, ?_⟩
  · rw [c8_extract_customer_email_priority.1]
    decide
  · rw [c8_extract_customer_email_priority.1]
    decide
  · rw [c8_extract_customer_email_priority.1]
    decide

/-- **C9**.  `extract_customer_email` is total on arbitrary conversation
payloads: whenever the `try` body raises (modelled by `Except.error`), the
`except` handler degrades the result to `None`. -/
theorem c9_extract_customer_email_no_throw :
    ∀ (conversation_data : PyVal) (msg : String),
      extract_customer_email_body conversation_data = .error msg →
      extract_customer_email conversation_data = Option.none := by
  intro d msg h
  unfold extract_customer_email
  rw [h]

/-- **C9** (witness): malformed payloads — a non-dictionary conversation
value, and a transcript containing a non-dictionary entry — make the body
raise, and the result degrades to `None`. -/
theorem c9_extract_customer_email_witness :
    extract_customer_email_body (.pyStr "oops") = .error "AttributeError" ∧
    extract_customer_email (.pyStr "oops") = Option.none ∧
    extract_customer_email_body (.pyDict [("transcript", .pyList [.pyInt 5])])
      = .error "AttributeError" ∧
    extract_customer_email (.pyDict [("transcript", .pyList [.pyInt 5])])
      = Option.none :=
  ⟨rfl, c9_extract_customer_email_no_throw _ "AttributeError" rfl, rfl,
    c9_extract_customer_email_no_throw _ "AttributeError" rfl⟩

/-! #### Every returned address is validated and lowercase (C10) -/

theorem searchEntries_ok_some :
    ∀ (entries : List PyVal) (e : String),
      searchEntries entries = .ok (some e) →
      ∃ m, validate_email m = true ∧ e = pyToLower m := by
  intro entries
  induction entries with
  | nil =>
    intro e h
    exact absurd h (by simp [searchEntries])
  | cons entry rest ih =>
    intro e h
    unfold searchEntries at h
    simp only [bind, Except.bind] at h
    cases hg : pyGet entry "message" (.pyStr "") with
    | error msg =>
      rw [hg] at h
      exact absurd h (by simp)
    | ok msgv =>
      rw [hg] at h
      cases msgv with
      | pyStr s =>
        dsimp only at h
        cases hsearch : pyEmailSearch s with
        | none =>
          rw [hsearch] at h
          exact ih e h
        | some m =>
          rw [hsearch] at h
          dsimp only at h
          by_cases hv : validate_email m = true
          · rw [if_pos hv] at h
            simp only [Except.ok.injEq, Option.some.injEq] at h
            exact ⟨m, hv, h.symm⟩
          · rw [if_neg hv] at h
            exact ih e h
      | pyNone => exact absurd h (by simp)
      | pyBool b => exact absurd h (by simp)
      | pyInt n => exact absurd h (by simp)
      | pyList l => exact absurd h (by simp)
      | pyDict l => exact absurd h (by simp)

theorem transcript_email_search_ok_some {d : PyVal} {e : String}
    (h : transcript_email_search d = .ok (some e)) :
    ∃ m, validate_email m = true ∧ e = pyToLower m := by
  unfold transcript_email_search at h
  simp only [bind, Except.bind] at h
  cases hg : pyGet d "transcript" (.pyList []) with
  | error msg =>
    rw [hg] at h
    exact absurd h (by simp)
  | ok tv =>
    rw [hg] at h
    dsimp only at h
    cases hit : pyIter tv with
    | error msg =>
      rw [hit] at h
      exact absurd h (by simp)
    | ok entries =>
      rw [hit] at h
      dsimp only at h
      exact searchEntries_ok_some entries e h

theorem extract_body_ok_some {d : PyVal} {e : String}
    (h : extract_customer_email_body d = .ok (some e)) :
    ∃ m, validate_email m = true ∧ e = pyToLower m := by
  unfold extract_customer_email_body at h
  simp only [bind, Except.bind] at h
  cases hg : pyGet d "conversation_initiation_client_data" (.pyDict []) with
  | error msg =>
    rw [hg] at h
    exact absurd h (by simp)
  | ok client =>
    rw [hg] at h
    dsimp only at h
    cases hge : pyGet client "email" .pyNone with
    | error msg =>
      rw [hge] at h
      exact absurd h (by simp)
    | ok email =>
      rw [hge] at h
      dsimp only at h
      by_cases ht : pyTruthy email = true
      · rw [if_pos ht] at h
        cases email with
        | pyStr s =>
          dsimp only at h
          by_cases hv : validate_email s = true
          · rw [if_pos hv] at h
            simp only [Except.ok.injEq, Option.some.injEq] at h
            exact ⟨s, hv, h.symm⟩
          · rw [if_neg hv] at h
            exact transcript_email_search_ok_some h
        | pyNone => exact absurd h (by simp)
        | pyBool b => exact absurd h (by simp)
        | pyInt n => exact absurd h (by simp)
        | pyList l => exact absurd h (by simp)
        | pyDict l => exact absurd h (by simp)
      · rw [if_neg ht] at h
        exact transcript_email_search_ok_some h

/-- **C10**.  Whenever `extract_customer_email` or
`extract_email_from_gemini_response` returns an address rather than
absent, that address passes `validate_email` and equals its own
lowercasing — every address the program uses as a send target or writes to
the audit log is validated and lowercase. -/
theorem c10_returned_addresses_validated_lowercase :
    ∀ e : String,
      (∀ d : PyVal, extract_customer_email d = some e →
        validate_email e = true ∧ pyToLower e = e) ∧
      (∀ r : String, extract_email_from_gemini_response r = some e →
        validate_email e = true ∧ pyToLower e = e) := by
  intro e
  constructor
  · intro d h
    unfold extract_customer_email at h
    cases hb : extract_customer_email_body d with
    | error msg =>
      rw [hb] at h
      exact absurd h (by simp)
    | ok v =>
      rw [hb] at h
      dsimp only at h
      subst h
      obtain ⟨m, hv, he⟩ := extract_body_ok_some hb
      subst he
      exact ⟨validate_email_pyToLower hv, pyToLower_map_fixed m.data⟩
  · intro r h
    exact extract_email_some h

/-- **C10** (witness): a metadata address in mixed case comes back
validated and lowercase from both extractors. -/
theorem c10_returned_addresses_witness :
    validate_email "john@test.com" = true ∧
    pyToLower "john@test.com" = "john@test.com" ∧
    validate_email "a@b.co" = true ∧ pyToLower "a@b.co" = "a@b.co" := by
  have h1 := (c10_returned_addresses_validated_lowercase "john@test.com").1
    (encodeConv (some "John@Test.COM") []) (by decide)
  have h2 := (c10_returned_addresses_validated_lowercase "a@b.co").2
    "Email: A@B.Co\nSummary: x" (by decide)
  exact ⟨h1.1, h1.2, h2.1, h2.2⟩

/-! #### The monitor loop claims (C1) -/

theorem firstDone_ok_some {details : String → Option PyVal} :
    ∀ (ids : List String) (cid : String),
      firstDone details ids = .ok (some cid) →
      cid ∈ ids ∧ ∃ d, details cid = some d ∧ pyTruthy d = true ∧
        statusIsDone d = .ok true := by
  intro ids
  induction ids with
  | nil =>
    intro cid h
    exact absurd h (by simp [firstDone])
  | cons c rest ih =>
    intro cid h
    unfold firstDone at h
    cases hd : details c with
    | none =>
      rw [hd] at h
      obtain ⟨hmem, hrest⟩ := ih cid h
      exact ⟨List.mem_cons.mpr (Or.inr hmem), hrest⟩
    | some d =>
      rw [hd] at h
      dsimp only at h
      by_cases ht : pyTruthy d = true
      · rw [if_pos ht] at h
        simp only [bind, Except.bind] at h
        cases hst : statusIsDone d with
        | error msg =>
          rw [hst] at h
          exact absurd h (by simp)
        | ok done =>
          rw [hst] at h
          dsimp only at h
          cases done with
          | true =>
            simp only [if_true, Except.ok.injEq, Option.some.injEq] at h
            subst h
            exact ⟨List.mem_cons_self _ _, d, hd, ht, hst⟩
          | false =>
            simp only [Bool.false_eq_true, if_false] at h
            obtain ⟨hmem, hrest⟩ := ih cid h
            exact ⟨List.mem_cons.mpr (Or.inr hmem), hrest⟩
      · rw [if_neg ht] at h
        obtain ⟨hmem, hrest⟩ := ih cid h
        exact ⟨List.mem_cons.mpr (Or.inr hmem), hrest⟩

/-- **C1**.  The monitor's "last seen" id advances only to the newest id of
a listing whose detail fetch reports status `"done"` (and the bootstrap
seed likewise comes from a listed `"done"` conversation); a cycle whose
newest conversation equals the current last-seen id is a strict no-op — no
state change, no audit-log line, no outbound email; and under a
most-recent-first provider (`Blocky` newest-id sequence including the
seed), no id — the seed included — is processed twice within one run. -/
theorem c1_monitor_last_seen_invariant :
    (∀ (env : CycleEnv) (last : Option String) (out : StepOut),
      monitor_step env last = .ok out → out.lastSeen ≠ last →
      ∃ cid d, headOf env = some cid ∧ out.lastSeen = some cid ∧
        out.processed = some cid ∧ env.details cid = some d ∧
        statusIsDone d = .ok true) ∧
    (∀ (env : CycleEnv) (last : Option String) (cid : String)
        (rest : List String),
      env.listing = some (cid :: rest) → last = some cid →
      monitor_step env last = .ok ⟨last, Option.none, [], []⟩) ∧
    (∀ (envs : List CycleEnv) (last : Option String),
      Blocky (last.toList ++ listingHeads envs) →
      (last.toList ++ (monitor_run last envs).2).Nodup) ∧
    (∀ (listing : Option (List String)) (details : String → Option PyVal)
        (cid : String),
      get_last_conversation_id listing details = .ok (some cid) →
      ∃ ids, listing = some ids ∧ cid ∈ ids ∧
        ∃ d, details cid = some d ∧ statusIsDone d = .ok true) := by
  refine ⟨?_, ?_, ?_, ?_⟩
  · intro env last out h hne
    rcases monitor_step_cases h with ⟨_, hlast, _, _⟩ | hproc
    · exact absurd hlast hne
    · obtain ⟨cid, d, hhead, _, hd, _, hst, hp, hlast⟩ := hproc
      exact ⟨cid, d, hhead, hlast, hp, hd, hst⟩
  · intro env last cid rest hl hlast
    unfold monitor_step
    rw [hl]
    dsimp only
    rw [if_pos hlast]
  · intro envs last hB
    exact monitor_run_nodup envs last hB
  · intro listing details cid h
    unfold get_last_conversation_id at h
    cases hl : listing with
    | none =>
      rw [hl] at h
      exact absurd h (by simp)
    | some ids =>
      rw [hl] at h
      obtain ⟨hmem, d, hd, _, hst⟩ := firstDone_ok_some ids cid h
      exact ⟨ids, rfl, hmem, d, hd, hst⟩

/-- **C1** (witness): with the newest listed conversation equal to the
current last-seen id, the cycle is a no-op, and over a one-cycle schedule
nothing is processed twice. -/
theorem c1_monitor_witness :
    monitor_step
      ⟨some ["c1"], fun _ => Option.none, ⟨some "x@y.co", some "pw"⟩,
        fun _ => .reply "", fun _ => .ok⟩
      (some "c1")
      = .ok ⟨some "c1", Option.none, [], []⟩ ∧
    (((some "c1" : Option String).toList ++
      (monitor_run (some "c1")
        [⟨some ["c1"], fun _ => Option.none, ⟨some "x@y.co", some "pw"⟩,
          fun _ => .reply "", fun _ => .ok⟩]).2).Nodup) := by
  constructor
  · exact c1_monitor_last_seen_invariant.2.1
      ⟨some ["c1"], fun _ => Option.none, ⟨some "x@y.co", some "pw"⟩,
        fun _ => .reply "", fun _ => .ok⟩
      (some "c1") "c1" [] rfl rfl
  · apply c1_monitor_last_seen_invariant.2.2.1
    intro x y hxy
    have hl : ((some "c1" : Option String).toList ++ listingHeads
        [⟨some ["c1"], fun _ => Option.none, ⟨some "x@y.co", some "pw"⟩,
          fun _ => .reply "", fun _ => .ok⟩]) = ["c1", "c1"] := rfl
    rw [hl] at hxy
    have hlen := hxy.length_le
    simp at hlen

end Conveertaion
